import Mathlib

/-!
# Verification of the auto-slice analysis pipeline

Shallow embedding of the core analysis pipeline of the `auto-slice`
repository: grid-line detection (`src/unnamed/part_003`), background and
shadow removal (`src/unnamed/part_004`, `src/background-remover.js`), and
shape decomposition (`src/shape-decomposer.js`).

Modelling conventions:
* A pixel buffer is `ImageData`: width, height and the flat row-major RGBA
  byte array as a `List Nat`; the data-model invariant is
  `data.length = width * height * 4`.
* Array reads `data[i]` become `List.getD i.toNat 0`; in every reachable
  code path the read is in bounds for a buffer satisfying the invariant,
  so the default is never observable there.  Array writes become
  `List.set` (like a typed array, an out-of-range write is a no-op).
* JavaScript integer arithmetic is modelled with `Int` (loop bounds and
  intermediate quantities can go negative); `Math.floor` of a quotient is
  `Int.fdiv`, and `Math.round (s / 2)` of an integer `s` is
  `Int.fdiv (s + 1) 2` (round half up).
* The few floating-point comparisons against constant thresholds
  (`len > w * 0.8`, `filled / total > 0.95`, saturation against
  `0.3 - a / 500`, `Math.sqrt dist <= tol`) are modelled by the equivalent
  exact rational comparisons, cross-multiplied to integers.
-/

namespace AutoSlice

/-- RGBA color with byte channels, `{r, g, b, a}` each in `[0, 255]`. -/
structure Color where
  r : Nat
  g : Nat
  b : Nat
  a : Nat
deriving Repr, DecidableEq

/-- A decoded pixel buffer (the `ImageData` objects of the source): `data`
is the row-major sequence of 4 interleaved 8-bit channels per pixel.
Data-model invariant: `data.length = width * height * 4`. -/
structure ImageData where
  width : Nat
  height : Nat
  data : List Nat
deriving Repr, DecidableEq

/-- Read one byte of a pixel array at an integer index (`data[i]`). -/
def readByte (d : List Nat) (i : Int) : Nat := d.getD i.toNat 0

/-- The list `[lo, lo+1, ..., hi-1]`: the JS loop `for (i = lo; i < hi; i++)`. -/
def intRange (lo hi : Int) : List Int :=
  (List.range (hi - lo).toNat).map fun k : Nat => lo + (k : Int)

/-- Byte offset of pixel `(x, y)` in a buffer of the given width:
`(y * width + x) * 4`. -/
def pixelIndex (width : Nat) (x y : Int) : Int := (y * width + x) * 4

/-- Alpha channel of pixel `(x, y)`: `data[(y * width + x) * 4 + 3]`. -/
def alphaAt (d : List Nat) (width : Nat) (x y : Int) : Nat :=
  readByte d (pixelIndex width x y + 3)

/-- The RGBA color stored at pixel `(x, y)`. -/
def colorAt (d : List Nat) (width : Nat) (x y : Int) : Color where
  r := readByte d (pixelIndex width x y)
  g := readByte d (pixelIndex width x y + 1)
  b := readByte d (pixelIndex width x y + 2)
  a := readByte d (pixelIndex width x y + 3)

/-! ## Shape decomposer (`src/shape-decomposer.js`) -/

/-- Content bounding box `{x, y, width, height}`. -/
structure Bounds where
  x : Int
  y : Int
  width : Int
  height : Int
deriving Repr, DecidableEq

/-- Accumulator of `findContentBounds`' scan (`minX`/`minY`/`maxX`/`maxY`). -/
structure BoundsAcc where
  minX : Int
  minY : Int
  maxX : Int
  maxY : Int

/-- `findContentBounds`: bounding box of all pixels with `alpha > 0`, or
`none` when the scan found nothing (`maxX < minX`). -/
def findContentBounds (img : ImageData) : Option Bounds :=
  let st : BoundsAcc := (List.range img.height).foldl (fun st (y : Nat) =>
    (List.range img.width).foldl (fun st (x : Nat) =>
      if 0 < alphaAt img.data img.width (x : Int) (y : Int) then
        { minX := min st.minX (x : Int), minY := min st.minY (y : Int),
          maxX := max st.maxX (x : Int), maxY := max st.maxY (y : Int) }
      else st) st)
    ⟨(img.width : Int), (img.height : Int), 0, 0⟩
  if st.maxX < st.minX then none
  else some ⟨st.minX, st.minY, st.maxX - st.minX + 1, st.maxY - st.minY + 1⟩

/-- The tag of the `type` field of a detected shape. -/
inductive ShapeType where
  | horizontalLine
  | verticalLine
  | rectangle
  | roundedRectangle
deriving Repr, DecidableEq

/-- The four per-corner radii reported by `analyzeCorners`. -/
structure CornerRadii where
  topLeft : Int
  topRight : Int
  bottomLeft : Int
  bottomRight : Int
deriving Repr, DecidableEq

/-- A detected shape: tagged union over the four `type` values, carrying
the fields of the corresponding object literal of the source. -/
inductive Shape where
  | horizontalLine (x y length thickness : Int) (color : Color)
  | verticalLine (x y length thickness : Int) (color : Color)
  | rectangle (x y width height : Int) (color : Color) (cornerRadius : Int)
  | roundedRectangle (x y width height : Int) (color : Color) (cornerRadius : Int)
      (corners : CornerRadii)
deriving Repr, DecidableEq

/-- The `type` field of a shape. -/
def Shape.type : Shape → ShapeType
  | .horizontalLine .. => .horizontalLine
  | .verticalLine .. => .verticalLine
  | .rectangle .. => .rectangle
  | .roundedRectangle .. => .roundedRectangle

/-- The `length` field of a line shape (0 for the rectangle shapes, which
carry no such field). -/
def Shape.length : Shape → Int
  | .horizontalLine _ _ len _ _ => len
  | .verticalLine _ _ len _ _ => len
  | .rectangle .. => 0
  | .roundedRectangle .. => 0

/-- State of one row/column scan of the line detectors
(`lineStart`, `lineColor`, the lines pushed so far). -/
structure LineScan where
  lineStart : Option Int
  lineColor : Option Color
  lines : List Shape

/-- One step of the scan in `detectHorizontalLines`: runs of `alpha > 0`
pixels are closed at a transparent pixel or at the right edge of the
bounds, and a run longer than 80% of the bounds width (exactly:
`5 * len > 4 * width`) is recorded as a `horizontal-line` shape. -/
def hLineStep (img : ImageData) (b : Bounds) (y : Int) (st : LineScan) (x : Int) : LineScan :=
  let index := pixelIndex img.width x y
  let alpha := if x < b.x + b.width then readByte img.data (index + 3) else 0
  if 0 < alpha ∧ st.lineStart = none then
    { st with lineStart := some x, lineColor := some (colorAt img.data img.width x y) }
  else if (alpha = 0 ∨ x = b.x + b.width) ∧ st.lineStart ≠ none then
    let ls := st.lineStart.getD 0
    let len := x - ls
    let lines := if 4 * b.width < 5 * len then
        st.lines ++ [Shape.horizontalLine ls y len 1 (st.lineColor.getD ⟨0, 0, 0, 0⟩)]
      else st.lines
    { lineStart := none, lineColor := none, lines := lines }
  else st

/-- `consolidateLines` of the source is the identity. -/
def consolidateLines (lines : List Shape) : List Shape := lines

/-- `detectHorizontalLines`. -/
def detectHorizontalLines (img : ImageData) (b : Bounds) : List Shape :=
  consolidateLines <| (intRange b.y (b.y + b.height)).foldl (fun acc y =>
    ((intRange b.x (b.x + b.width + 1)).foldl (hLineStep img b y)
      { lineStart := none, lineColor := none, lines := acc }).lines) []

/-- One step of the scan in `detectVerticalLines` (symmetric to
`hLineStep`, scanning a column). -/
def vLineStep (img : ImageData) (b : Bounds) (x : Int) (st : LineScan) (y : Int) : LineScan :=
  let index := pixelIndex img.width x y
  let alpha := if y < b.y + b.height then readByte img.data (index + 3) else 0
  if 0 < alpha ∧ st.lineStart = none then
    { st with lineStart := some y, lineColor := some (colorAt img.data img.width x y) }
  else if (alpha = 0 ∨ y = b.y + b.height) ∧ st.lineStart ≠ none then
    let ls := st.lineStart.getD 0
    let len := y - ls
    let lines := if 4 * b.height < 5 * len then
        st.lines ++ [Shape.verticalLine x ls len 1 (st.lineColor.getD ⟨0, 0, 0, 0⟩)]
      else st.lines
    { lineStart := none, lineColor := none, lines := lines }
  else st

/-- `detectVerticalLines`. -/
def detectVerticalLines (img : ImageData) (b : Bounds) : List Shape :=
  consolidateLines <| (intRange b.x (b.x + b.width)).foldl (fun acc x =>
    ((intRange b.y (b.y + b.height + 1)).foldl (vLineStep img b x)
      { lineStart := none, lineColor := none, lines := acc }).lines) []

/-- `checkIfRectangle`: strictly more than 95% of the pixels inside the
bounds have `alpha > 200` (exactly: `20 * filled > 19 * total`; the JS
quotient comparison is false whenever `total ≤ 0`, since then no pixel is
scanned). -/
def checkIfRectangle (img : ImageData) (b : Bounds) : Bool :=
  let filled : Int := (intRange b.y (b.y + b.height)).foldl (fun n y =>
    (intRange b.x (b.x + b.width)).foldl (fun n x =>
      if 200 < alphaAt img.data img.width x y then n + 1 else n) n) 0
  let totalPixels : Int := b.width * b.height
  decide (0 < totalPixels ∧ 19 * totalPixels < 20 * filled)

/-- `sampleDominantColor`: the pixel at the center of the bounds. -/
def sampleDominantColor (img : ImageData) (b : Bounds) : Color :=
  let centerX := b.x + Int.fdiv b.width 2
  let centerY := b.y + Int.fdiv b.height 2
  colorAt img.data img.width centerX centerY

/-- `detectRectangles`. -/
def detectRectangles (img : ImageData) (b : Bounds) : List Shape :=
  if checkIfRectangle img b then
    [Shape.rectangle b.x b.y b.width b.height (sampleDominantColor img b) 0]
  else []

/-- `measureCornerRadius`: walk the corner's inward diagonal and return the
step index of the first pixel with `alpha > 128`, 0 when none is found
within the sample window. -/
def measureCornerRadius (img : ImageData) (cornerX cornerY : Int) (sampleSize : Int)
    (dx dy : Int) : Int :=
  let startX := if dx = 1 then cornerX else cornerX + sampleSize - 1
  let startY := if dy = 1 then cornerY else cornerY + sampleSize - 1
  ((intRange 0 sampleSize).find? fun i =>
    decide (128 < alphaAt img.data img.width (startX + dx * i) (startY + dy * i))).getD 0

/-- Result of `analyzeCorners`. -/
structure CornerAnalysis where
  hasRounding : Bool
  radius : Int
  individual : CornerRadii

/-- `analyzeCorners`: measure all four corners; `radius` is the rounded
average of the nonzero corner radii. -/
def analyzeCorners (img : ImageData) (b : Bounds) : CornerAnalysis :=
  let sampleSize := min 20 (Int.fdiv (min b.width b.height) 4)
  let tl := measureCornerRadius img b.x b.y sampleSize 1 1
  let tr := measureCornerRadius img (b.x + b.width - sampleSize) b.y sampleSize (-1) 1
  let bl := measureCornerRadius img b.x (b.y + b.height - sampleSize) sampleSize 1 (-1)
  let br := measureCornerRadius img (b.x + b.width - sampleSize) (b.y + b.height - sampleSize)
    sampleSize (-1) (-1)
  let rounded := [tl, tr, bl, br].filter fun r => decide (0 < r)
  let totalRadius := rounded.foldl (· + ·) 0
  { hasRounding := decide (0 < rounded.length)
    radius := if 0 < rounded.length then
        Int.fdiv (2 * totalRadius + rounded.length) (2 * (rounded.length : Int))
      else 0
    individual := ⟨tl, tr, bl, br⟩ }

/-- `detectRoundedRectangles`. -/
def detectRoundedRectangles (img : ImageData) (b : Bounds) : List Shape :=
  let corners := analyzeCorners img b
  if corners.hasRounding then
    [Shape.roundedRectangle b.x b.y b.width b.height (sampleDominantColor img b)
      corners.radius corners.individual]
  else []

/-- The `ShapeAnalysis` record returned by `decomposeIntoShapes`. -/
structure ShapeAnalysis where
  shapes : List Shape
  bounds : Option Bounds
  isEmpty : Bool
deriving Repr, DecidableEq

/-- `decomposeIntoShapes`: bounding box, rounded-rectangle test (which
suppresses the plain-rectangle test when positive), then the two line
detectors; `isEmpty` is `shapes.length === 0`. -/
def decomposeIntoShapes (img : ImageData) : ShapeAnalysis :=
  match findContentBounds img with
  | none => { shapes := [], isEmpty := true, bounds := none }
  | some bounds =>
    let roundedRects := detectRoundedRectangles img bounds
    let firstShapes := if 0 < roundedRects.length then roundedRects
      else detectRectangles img bounds
    let shapes := firstShapes ++ detectHorizontalLines img bounds ++
      detectVerticalLines img bounds
    { shapes := shapes, bounds := some bounds, isEmpty := decide (shapes.length = 0) }

/-! ## Grid detector (`src/unnamed/part_003`)

The source reads `tolerance`, `minXGap` and `minYGap` from the global
`window.gridSettings`; following §9 of the design they are threaded here as
explicit parameters of `detectGrid` (defaults 5, 50, 50). -/

/-- `colorsMatch`: per-channel absolute difference within `tolerance`,
including alpha. -/
def colorsMatch (c1 c2 : Color) (tolerance : Int) : Bool :=
  decide (|(c1.r : Int) - (c2.r : Int)| ≤ tolerance ∧
    |(c1.g : Int) - (c2.g : Int)| ≤ tolerance ∧
    |(c1.b : Int) - (c2.b : Int)| ≤ tolerance ∧
    |(c1.a : Int) - (c2.a : Int)| ≤ tolerance)

/-- `isUniformRow`: every pixel of row `y` matches the row's first pixel
within `tolerance`. -/
def isUniformRow (d : List Nat) (width : Nat) (y : Int) (tolerance : Int) : Bool :=
  let firstPixel := colorAt d width 0 y
  (intRange 1 (width : Int)).all fun x => colorsMatch firstPixel (colorAt d width x y) tolerance

/-- `isUniformColumn`: every pixel of column `x` matches the column's first
pixel within `tolerance`. -/
def isUniformColumn (d : List Nat) (width : Nat) (x : Int) (tolerance : Int)
    (height : Nat) : Bool :=
  let firstPixel := colorAt d width x 0
  (intRange 1 (height : Int)).all fun y => colorsMatch firstPixel (colorAt d width x y) tolerance

/-- The `{top, right, bottom, left}` border widths of `detectOuterBorders`. -/
structure OuterBorders where
  top : Nat
  right : Nat
  bottom : Nat
  left : Nat
deriving Repr, DecidableEq

/-- `detectOuterBorders`: number of consecutive uniform rows/columns at
each image edge. -/
def detectOuterBorders (d : List Nat) (width height : Nat) (tolerance : Int) : OuterBorders where
  top := ((List.range height).takeWhile fun y => isUniformRow d width (y : Int) tolerance).length
  bottom := ((List.range height).reverse.takeWhile fun y =>
    isUniformRow d width (y : Int) tolerance).length
  left := ((List.range width).takeWhile fun x =>
    isUniformColumn d width (x : Int) tolerance height).length
  right := ((List.range width).reverse.takeWhile fun x =>
    isUniformColumn d width (x : Int) tolerance height).length

/-- A consolidated divider band `{start, end, center, width}`; the source's
`end` field is named `stop` here (`end` is reserved in Lean).  The
`exactCenter` debugging field added by `refineDividerCenters` is not
modelled (nothing reads it). -/
structure DividerGroup where
  start : Int
  stop : Int
  center : Int
  width : Int
deriving Repr, DecidableEq

/-- Build a group from a run `[gs, ge]`; `center` is
`Math.round((gs + ge) / 2)`, i.e. `⌊(gs + ge + 1) / 2⌋` (round half up). -/
def mkGroup (gs ge : Int) : DividerGroup :=
  ⟨gs, ge, Int.fdiv (gs + ge + 1) 2, ge - gs + 1⟩

/-- Loop of `consolidateDividersToGroups`: extend the current run
`[gs, ge]` while indices are consecutive, else close it. -/
def consolidateLoop (gs ge : Int) : List Int → List DividerGroup
  | [] => [mkGroup gs ge]
  | d :: rest =>
    if d = ge + 1 then consolidateLoop gs d rest
    else mkGroup gs ge :: consolidateLoop d d rest

/-- `consolidateDividersToGroups`: contiguous runs of divider coordinates
collapse into one group each. -/
def consolidateDividersToGroups : List Int → List DividerGroup
  | [] => []
  | d :: rest => consolidateLoop d d rest

/-- `findHorizontalDividers`: uniform rows, consolidated into groups. -/
def findHorizontalDividers (d : List Nat) (width height : Nat) (tolerance : Int) :
    List DividerGroup :=
  consolidateDividersToGroups
    (((List.range height).filter fun y : Nat => isUniformRow d width (y : Int) tolerance).map
      fun y : Nat => (y : Int))

/-- `findVerticalDividers`: uniform columns, consolidated into groups. -/
def findVerticalDividers (d : List Nat) (width height : Nat) (tolerance : Int) :
    List DividerGroup :=
  consolidateDividersToGroups
    (((List.range width).filter fun x : Nat => isUniformColumn d width (x : Int) tolerance height).map
      fun x : Nat => (x : Int))

/-- `refineDividerCenters`: recompute each center as the rounded midpoint
(the same formula consolidation used). -/
def refineDividerCenters (lineGroups : List DividerGroup) : List DividerGroup :=
  lineGroups.map fun g => { g with center := Int.fdiv (g.start + g.stop + 1) 2 }

/-- Loop of `enforceMinimumGap`: keep a group whose center is at least
`minGap` past the last kept one; otherwise the thicker of the two wins
(replacing the last kept entry in place). -/
def enforceLoop (minGap : Int) : List DividerGroup → DividerGroup → List DividerGroup →
    List DividerGroup
  | filtered, _, [] => filtered
  | filtered, lastKept, current :: rest =>
    if minGap ≤ current.center - lastKept.center then
      enforceLoop minGap (filtered ++ [current]) current rest
    else if lastKept.width < current.width then
      enforceLoop minGap (filtered.dropLast ++ [current]) current rest
    else
      enforceLoop minGap filtered lastKept rest

/-- `enforceMinimumGap`: the first group is always kept. -/
def enforceMinimumGap (lineGroups : List DividerGroup) (minGap : Int) : List DividerGroup :=
  match lineGroups with
  | [] => []
  | first :: rest => enforceLoop minGap [first] first rest

/-- A cell rectangle between consecutive slice centers (the constant
`type: 'cell'` field is not modelled). -/
structure Cell where
  row : Nat
  col : Nat
  x : Int
  y : Int
  width : Int
  height : Int
deriving Repr, DecidableEq

/-- `computeCells`: with no gridlines at all, one cell spanning the whole
image; otherwise one cell strictly between each pair of consecutive slice
centers on both axes (`outerBorders` is accepted and ignored, as in the
source). -/
def computeCells (horizontalLines verticalLines : List Int) (width height : Nat)
    (_outerBorders : OuterBorders) : List Cell :=
  if horizontalLines = [] ∧ verticalLines = [] then
    [⟨0, 0, 0, 0, (width : Int), (height : Int)⟩]
  else
    (List.range (horizontalLines.length - 1)).flatMap fun row =>
      (List.range (verticalLines.length - 1)).map fun col =>
        let y := horizontalLines.getD row 0
        let nextY := horizontalLines.getD (row + 1) 0
        let x := verticalLines.getD col 0
        let nextX := verticalLines.getD (col + 1) 0
        ⟨row, col, x, y, nextX - x, nextY - y⟩

/-- Segment kinds of `computeGridLineSegments`. -/
inductive SegmentType where
  | horizontalLine
  | verticalLine
  | intersection
deriving Repr, DecidableEq

/-- A grid line segment rectangle. -/
structure GridLineSegment where
  id : String
  type : SegmentType
  x : Int
  y : Int
  width : Int
  height : Int
deriving Repr, DecidableEq

/-- `computeGridLineSegments`: one segment per divider group plus one per
(horizontal, vertical) crossing, with a running id counter. -/
def computeGridLineSegments (horizontalLineGroups verticalLineGroups : List DividerGroup)
    (width height : Nat) : List GridLineSegment :=
  let hsegs := horizontalLineGroups.enum.map fun p =>
    { id := "h-line-" ++ toString p.1, type := SegmentType.horizontalLine,
      x := 0, y := p.2.start, width := (width : Int), height := p.2.width : GridLineSegment }
  let vsegs := verticalLineGroups.enum.map fun p =>
    { id := "v-line-" ++ toString (horizontalLineGroups.length + p.1),
      type := SegmentType.verticalLine,
      x := p.2.start, y := 0, width := p.2.width, height := (height : Int) : GridLineSegment }
  let base := horizontalLineGroups.length + verticalLineGroups.length
  let isegs := horizontalLineGroups.enum.flatMap fun hp =>
    verticalLineGroups.enum.map fun vp =>
      { id := "intersection-" ++ toString (base + hp.1 * verticalLineGroups.length + vp.1),
        type := SegmentType.intersection,
        x := vp.2.start, y := hp.2.start, width := vp.2.width, height := hp.2.width :
        GridLineSegment }
  hsegs ++ vsegs ++ isegs

/-- The `GridConfig` record returned by `detectGrid`. -/
structure GridConfig where
  columns : Int
  rows : Int
  horizontalSlices : List Int
  verticalSlices : List Int
  horizontalLineGroups : List DividerGroup
  verticalLineGroups : List DividerGroup
  cells : List Cell
  gridLineSegments : List GridLineSegment
  outerBorders : OuterBorders
deriving Repr, DecidableEq

/-- `detectGrid`: divider scan, consolidation, center refinement,
minimum-gap filtering, then cells and segments.
`columns` is `verticalSlices.length > 0 ? verticalSlices.length - 1 : 1`,
and `rows` likewise from `horizontalSlices`. -/
def detectGrid (img : ImageData) (tolerance minXGap minYGap : Int) : GridConfig :=
  let outerBorders := detectOuterBorders img.data img.width img.height tolerance
  let horizontalLineGroups := findHorizontalDividers img.data img.width img.height tolerance
  let verticalLineGroups := findVerticalDividers img.data img.width img.height tolerance
  let refinedHorizontalGroups := refineDividerCenters horizontalLineGroups
  let refinedVerticalGroups := refineDividerCenters verticalLineGroups
  let filteredHorizontalGroups := enforceMinimumGap refinedHorizontalGroups minYGap
  let filteredVerticalGroups := enforceMinimumGap refinedVerticalGroups minXGap
  let horizontalSlices := filteredHorizontalGroups.map fun g => g.center
  let verticalSlices := filteredVerticalGroups.map fun g => g.center
  let cells := computeCells horizontalSlices verticalSlices img.width img.height outerBorders
  let gridLineSegments := computeGridLineSegments filteredHorizontalGroups
    filteredVerticalGroups img.width img.height
  { columns := if 0 < verticalSlices.length then (verticalSlices.length : Int) - 1 else 1
    rows := if 0 < horizontalSlices.length then (horizontalSlices.length : Int) - 1 else 1
    horizontalSlices := horizontalSlices
    verticalSlices := verticalSlices
    horizontalLineGroups := filteredHorizontalGroups
    verticalLineGroups := filteredVerticalGroups
    cells := cells
    gridLineSegments := gridLineSegments
    outerBorders := outerBorders }

/-! ## Background remover (`src/unnamed/part_004`)

The source reads the aggressiveness from `window.gridSettings`; following
§9 it is threaded as an explicit parameter of `removeBackground`. -/

/-- Squared RGB distance.  `colorDistance` of the source is the square
root of this; every comparison `colorDistance(c1, c2) <= t` is modelled
exactly as `0 ≤ t ∧ colorDistSq c1 c2 ≤ t * t`. -/
def colorDistSq (c1 c2 : Color) : Int :=
  ((c1.r : Int) - (c2.r : Int)) ^ 2 + ((c1.g : Int) - (c2.g : Int)) ^ 2 +
    ((c1.b : Int) - (c2.b : Int)) ^ 2

/-- `sampleBackgroundPoints`: the 4 corner pixels plus, when the image is
large enough, 4 points inset by `min(3, ⌊min(width, height) / 4⌋)`. -/
def sampleBackgroundPoints (img : ImageData) : List Color :=
  let w := img.width
  let h := img.height
  let cornerPoints : List (Int × Int) :=
    [(0, 0), ((w : Int) - 1, 0), (0, (h : Int) - 1), ((w : Int) - 1, (h : Int) - 1)]
  let inset : Nat := min 3 (min w h / 4)
  let cornerPoints := if 2 * inset < w ∧ 2 * inset < h then
      cornerPoints ++ [((inset : Int), (inset : Int)), ((w : Int) - 1 - inset, (inset : Int)),
        ((inset : Int), (h : Int) - 1 - inset), ((w : Int) - 1 - inset, (h : Int) - 1 - inset)]
    else cornerPoints
  cornerPoints.map fun p => colorAt img.data w p.1 p.2

/-- Clustering step of `findMostCommonColor`: append `color` to the first
cluster whose representative (first element) is within RGB distance 20
(squared: 400), or start a new cluster. -/
def addToGroups : List (List Color) → Color → List (List Color)
  | [], color => [[color]]
  | group :: rest, color =>
    if colorDistSq color (group.headD ⟨0, 0, 0, 0⟩) ≤ 400 then (group ++ [color]) :: rest
    else group :: addToGroups rest color

/-- `Math.round(s / len)` for naturals (`len > 0`): round half up. -/
def roundAvg (s len : Nat) : Nat := (2 * s + len) / (2 * len)

/-- `findMostCommonColor`: cluster the samples, take the first largest
cluster, return its channel-wise rounded average (white for no samples). -/
def findMostCommonColor (colors : List Color) : Color :=
  if colors = [] then ⟨255, 255, 255, 255⟩ else
  let colorGroups := colors.foldl addToGroups []
  let largestGroup := colorGroups.foldl
    (fun best g => if best.length < g.length then g else best) (colorGroups.headD [])
  { r := roundAvg (largestGroup.foldl (fun s c => s + c.r) 0) largestGroup.length
    g := roundAvg (largestGroup.foldl (fun s c => s + c.g) 0) largestGroup.length
    b := roundAvg (largestGroup.foldl (fun s c => s + c.b) 0) largestGroup.length
    a := roundAvg (largestGroup.foldl (fun s c => s + c.a) 0) largestGroup.length }

/-- Background-candidate test of `createBackgroundMask` for pixel number
`i`: RGB distance to the background color within the tolerance (the mask
does not sample the pixel's alpha). -/
def isBackgroundCandidate (d : List Nat) (backgroundColor : Color) (tolerance : Int)
    (i : Nat) : Bool :=
  let c : Color := ⟨d.getD (i * 4) 0, d.getD (i * 4 + 1) 0, d.getD (i * 4 + 2) 0, 0⟩
  decide (0 ≤ tolerance ∧ colorDistSq c backgroundColor ≤ tolerance * tolerance)

/-- The mask built by `createBackgroundMask` before the flood fill: 1 for
each background-candidate pixel. -/
def initialBackgroundMask (img : ImageData) (backgroundColor : Color) (tolerance : Int) :
    List Nat :=
  (List.range (img.width * img.height)).map fun i =>
    if isBackgroundCandidate img.data backgroundColor tolerance i then 1 else 0

/-- The `while (queue.length > 0)` loop of `floodFillFromEdges`: pop an
index; skip it when already visited or not a mask candidate; otherwise
mark it in `visited` and `result` and push its in-bounds 4-neighbors. -/
def floodLoop (mask : List Nat) (width height : Nat) (queue visited result : List Nat)
    (hv : visited.length = mask.length) : List Nat :=
  match queue with
  | [] => result
  | index :: rest =>
    if h : visited.getD index 0 = 1 ∨ mask.getD index 0 = 0 then
      floodLoop mask width height rest visited result hv
    else
      let x := index % width
      let y := index / width
      let pushes := (if 0 < x then [index - 1] else []) ++
        (if x < width - 1 then [index + 1] else []) ++
        (if 0 < y then [index - width] else []) ++
        (if y < height - 1 then [index + width] else [])
      floodLoop mask width height (rest ++ pushes) (visited.set index 1) (result.set index 1)
        (by rw [List.length_set]; exact hv)
termination_by queue.length + 5 * visited.countP fun v => v != 1
decreasing_by
  · simp only [List.length_cons]
    omega
  · have hmlt : index < mask.length := by
      by_contra hge
      exact (not_or.mp h).2 (List.getD_eq_default _ _ (Nat.le_of_not_lt hge))
    have hvlt : index < visited.length := by omega
    have hget : visited[index] ≠ 1 := by
      have h1 := (not_or.mp h).1
      rwa [List.getD_eq_getElem _ _ hvlt] at h1
    have hcount : (visited.set index 1).countP (fun v => v != 1) =
        visited.countP (fun v => v != 1) - 1 := by
      rw [List.countP_set _ _ _ _ hvlt]
      simp [bne_iff_ne, hget]
    have hpos : 0 < visited.countP (fun v => v != 1) := by
      rw [List.countP_pos_iff]
      exact ⟨visited[index], List.getElem_mem hvlt, by simp [bne_iff_ne, hget]⟩
    simp only [List.length_append, List.length_cons, hcount]
    split <;> split <;> split <;> split <;>
      simp only [List.length_cons, List.length_nil] <;> omega

/-- `floodFillFromEdges`: seed the queue with all edge pixels, and keep
only mask pixels reachable from them (`hm` is the mask-size invariant of
the caller). -/
def floodFillFromEdges (mask : List Nat) (width height : Nat)
    (hm : mask.length = width * height) : List Nat :=
  let initialQueue :=
    ((List.range width).flatMap fun x => [x, (height - 1) * width + x]) ++
    ((List.range height).flatMap fun y => [y * width, y * width + width - 1])
  floodLoop mask width height initialQueue (List.replicate (width * height) 0)
    (List.replicate (width * height) 0) (by simp [hm])

/-- `createBackgroundMask`: candidate mask restricted by the edge flood
fill. -/
def createBackgroundMask (img : ImageData) (backgroundColor : Color) (tolerance : Int) :
    List Nat :=
  floodFillFromEdges (initialBackgroundMask img backgroundColor tolerance) img.width img.height
    (by simp [initialBackgroundMask])

/-- `applyTransparencyMask`: set alpha to 0 for every masked pixel. -/
def applyTransparencyMask (d : List Nat) (mask : List Nat) : List Nat :=
  (List.range mask.length).foldl (fun d i =>
    if mask.getD i 0 = 1 then d.set (i * 4 + 3) 0 else d) d

/-- The `transparentNeighbors` count of `isShadowPixel`: in-bounds
4-connected neighbors with alpha 0. -/
def transparentNeighborCount (d : List Nat) (width height : Nat) (x y : Int) : Nat :=
  [((-1 : Int), (0 : Int)), (1, 0), (0, -1), (0, 1)].foldl (fun c p =>
    let nx := x + p.1
    let ny := y + p.2
    if 0 ≤ nx ∧ nx < (width : Int) ∧ 0 ≤ ny ∧ ny < (height : Int) ∧
        readByte d (pixelIndex width nx ny + 3) = 0 then c + 1 else c) 0

/-- `isShadowPixel`: at least 2 fully transparent 4-connected in-bounds
neighbors, and own alpha below 128. -/
def isShadowPixel (d : List Nat) (x y : Int) (width height : Nat) : Bool :=
  let currentAlpha := readByte d (pixelIndex width x y + 3)
  decide (2 ≤ transparentNeighborCount d width height x y ∧ currentAlpha < 128)

/-- Innermost step of `removeShadowsAlongSlices`: zero the pixel's alpha
when it is semi-transparent (`0 < alpha < 200`) and `isShadowPixel`. -/
def shadowPixelStep (width height : Nat) (y : Int) (d : List Nat) (x : Int) : List Nat :=
  let index := pixelIndex width x y
  let alpha := readByte d (index + 3)
  if 0 < alpha ∧ alpha < 200 then
    if isShadowPixel d x y width height then d.set (index + 3).toNat 0 else d
  else d

/-- Band scan of `removeShadowsAlongSlices` for one slice line: rows
`max(0, s - shadowWidth) ≤ y < min(height, s + shadowWidth)`. -/
def shadowSliceStep (width height : Nat) (shadowWidth : Int) (d : List Nat)
    (sliceLine : Int) : List Nat :=
  let startY := max 0 (sliceLine - shadowWidth)
  let endY := min (height : Int) (sliceLine + shadowWidth)
  (intRange startY endY).foldl (fun d y =>
    (intRange 0 (width : Int)).foldl (shadowPixelStep width height y) d) d

/-- `removeShadowsAlongSlices` (in-place in the source; here the updated
buffer is returned). -/
def removeShadowsAlongSlices (img : ImageData) (sliceLines : List Int) (shadowWidth : Int) :
    ImageData :=
  { img with data := sliceLines.foldl (shadowSliceStep img.width img.height shadowWidth) img.data }

/-- `checkForStrongNeighbor`: some 8-connected in-bounds neighbor is fully
opaque with saturation above 0.3 (exactly `10 * (max - min) > 3 * max`) or
brightness above 150 (exactly `r + g + b > 450`). -/
def checkForStrongNeighbor (d : List Nat) (x y : Int) (width height : Nat) : Bool :=
  [((-1 : Int), (0 : Int)), (1, 0), (0, -1), (0, 1), (-1, -1), (1, 1), (-1, 1), (1, -1)].any
    fun p =>
      let nx := x + p.1
      let ny := y + p.2
      decide (0 ≤ nx ∧ nx < (width : Int) ∧ 0 ≤ ny ∧ ny < (height : Int)) &&
        (let ni := pixelIndex width nx ny
         readByte d (ni + 3) == 255 &&
          (let r := readByte d ni
           let g := readByte d (ni + 1)
           let b := readByte d (ni + 2)
           let mx := max r (max g b)
           let mn := min r (min g b)
           decide (3 * mx < 10 * (mx - mn) ∨ 450 < r + g + b)))

/-- `checkAndRemoveGradient`: skip out-of-bounds and fully transparent
pixels; zero any semi-transparent pixel (`alpha < 250`); zero a fully
opaque shadow-like pixel (saturation below `0.3 - aggressiveness / 500`,
exactly `500 * (max - min) < max * (150 - aggressiveness)` for `max > 0`,
and brightness below 200, exactly `r + g + b < 600`) that has no strong
neighbor. -/
def checkAndRemoveGradient (d : List Nat) (x y : Int) (width height : Nat)
    (aggressiveness : Int) : List Nat :=
  if x < 0 ∨ (width : Int) ≤ x ∨ y < 0 ∨ (height : Int) ≤ y then d
  else
    let index := pixelIndex width x y
    let alpha := readByte d (index + 3)
    if alpha = 0 then d
    else if alpha < 250 then d.set (index + 3).toNat 0
    else
      let r := readByte d index
      let g := readByte d (index + 1)
      let b := readByte d (index + 2)
      let mx := max r (max g b)
      let mn := min r (min g b)
      let isShadowLike := (if mx = 0 then decide (0 < 150 - aggressiveness)
          else decide (500 * ((mx : Int) - (mn : Int)) < (mx : Int) * (150 - aggressiveness))) &&
        decide (r + g + b < 600)
      if isShadowLike && !checkForStrongNeighbor d x y width height then
        d.set (index + 3).toNat 0
      else d

/-- `removeGradientShadows`: scan `max(3, min(15, ⌊aggressiveness / 6⌋))`
pixels deep from each of the four edges. -/
def removeGradientShadows (d : List Nat) (width height : Nat) (aggressiveness : Int) :
    List Nat :=
  let scanDepth := max 3 (min 15 (Int.fdiv aggressiveness 6))
  (intRange 0 scanDepth).foldl (fun d depth =>
    let d := (intRange 0 (width : Int)).foldl (fun d x =>
      let d := checkAndRemoveGradient d x depth width height aggressiveness
      checkAndRemoveGradient d x ((height : Int) - 1 - depth) width height aggressiveness) d
    (intRange 0 (height : Int)).foldl (fun d y =>
      let d := checkAndRemoveGradient d depth y width height aggressiveness
      checkAndRemoveGradient d ((width : Int) - 1 - depth) y width height aggressiveness) d) d

/-- `removeSemiTransparentPixels`: zero every `isShadowPixel` whose alpha
is positive and below `max(200, 255 - aggressiveness * 1.5)` (the
comparison is modelled doubled: `2 * alpha < max(400, 510 - 3 * aggressiveness)`). -/
def removeSemiTransparentPixels (d : List Nat) (width height : Nat) (aggressiveness : Int) :
    List Nat :=
  let alphaThreshold2 : Int := max 400 (510 - 3 * aggressiveness)
  (List.range (width * height)).foldl (fun d i =>
    let index := i * 4
    let alpha := d.getD (index + 3) 0
    if 0 < alpha ∧ 2 * (alpha : Int) < alphaThreshold2 then
      (let x : Nat := i % width
       let y : Nat := i / width
       if isShadowPixel d (x : Int) (y : Int) width height then d.set (index + 3) 0 else d)
    else d) d

/-- `removeBackground` (`src/unnamed/part_004`): detect the background
color from corner samples, mask and clear the edge-connected background,
then run the gradient-shadow and residual semi-transparency passes. -/
def removeBackground (img : ImageData) (tolerance : Int) (aggressiveness : Int) : ImageData :=
  let effectiveTolerance := max tolerance (aggressiveness * 2)
  let backgroundColors := sampleBackgroundPoints img
  let dominantBackground := findMostCommonColor backgroundColors
  let mask := createBackgroundMask img dominantBackground effectiveTolerance
  let d1 := applyTransparencyMask img.data mask
  let shadowAggressiveness := max aggressiveness 25
  let d2 := removeGradientShadows d1 img.width img.height shadowAggressiveness
  let semiTransparentAggressiveness := max aggressiveness 30
  let d3 := removeSemiTransparentPixels d2 img.width img.height semiTransparentAggressiveness
  { img with data := d3 }

/-! ## Frame properties of the alpha-clearing passes

Every mutation performed by the background remover writes a `0` into an
alpha byte (`data[index + 3] = 0`).  `AlphaShrink` captures the resulting
relation between the input and output byte arrays. -/

/-- `AlphaShrink d d'`: same length, every non-alpha byte unchanged, every
alpha byte unchanged or zeroed. -/
def AlphaShrink (d d' : List Nat) : Prop :=
  d'.length = d.length ∧
    ∀ j : Nat, (j % 4 ≠ 3 → d'.getD j 0 = d.getD j 0) ∧
      (d'.getD j 0 = d.getD j 0 ∨ d'.getD j 0 = 0)

theorem alphaShrink_refl (d : List Nat) : AlphaShrink d d :=
  ⟨rfl, fun _ => ⟨fun _ => rfl, Or.inl rfl⟩⟩

theorem alphaShrink_trans {d1 d2 d3 : List Nat} (h12 : AlphaShrink d1 d2)
    (h23 : AlphaShrink d2 d3) : AlphaShrink d1 d3 := by
  refine ⟨h23.1.trans h12.1, fun j => ⟨fun hj => ?_, ?_⟩⟩
  · rw [(h23.2 j).1 hj, (h12.2 j).1 hj]
  · rcases (h23.2 j).2 with h | h
    · rw [h]; exact (h12.2 j).2
    · exact Or.inr h

theorem getD_set_of_ne (l : List Nat) (n j a : Nat) (h : n ≠ j) :
    (l.set n a).getD j 0 = l.getD j 0 := by
  simp [List.getD_eq_getElem?_getD, List.getElem?_set_ne h]

theorem getD_set_same (l : List Nat) (n : Nat) (a : Nat) (h : n < l.length) :
    (l.set n a).getD n 0 = a := by
  simp [List.getD_eq_getElem?_getD, List.getElem?_set_self', List.getElem?_eq_getElem h]

/-- Setting an alpha byte (index `≡ 3 mod 4`) to 0 is an `AlphaShrink`. -/
theorem alphaShrink_set (d : List Nat) (n : Nat) (hn : n % 4 = 3) :
    AlphaShrink d (d.set n 0) := by
  refine ⟨List.length_set .., fun j => ⟨fun hj => ?_, ?_⟩⟩
  · exact getD_set_of_ne d n j 0 (fun he => hj (he ▸ hn))
  · rcases eq_or_ne n j with rfl | hne
    · by_cases hlt : n < d.length
      · right
        simp [List.getD_eq_getElem?_getD, List.getElem?_set_self', hlt,
          List.getElem?_eq_getElem hlt]
      · left
        rw [List.set_eq_of_length_le (Nat.le_of_not_lt hlt)]
    · exact Or.inl (getD_set_of_ne d n j 0 hne)

/-- An `AlphaShrink`-preserving fold step gives an `AlphaShrink` fold. -/
theorem alphaShrink_foldl {α : Type} (f : List Nat → α → List Nat) (l : List α)
    (hf : ∀ d a, a ∈ l → AlphaShrink d (f d a)) (d : List Nat) :
    AlphaShrink d (l.foldl f d) := by
  induction l generalizing d with
  | nil => exact alphaShrink_refl d
  | cons a l ih =>
    exact alphaShrink_trans (hf d a (List.mem_cons_self a l))
      (ih (fun d b hb => hf d b (List.mem_cons_of_mem a hb)) (f d a))

/-- Membership in an integer range. -/
theorem mem_intRange {lo hi x : Int} : x ∈ intRange lo hi ↔ lo ≤ x ∧ x < hi := by
  unfold intRange
  constructor
  · intro hx
    obtain ⟨k, hk, hkx⟩ := List.mem_map.mp hx
    rw [List.mem_range] at hk
    omega
  · intro hx
    refine List.mem_map.mpr ⟨(x - lo).toNat, List.mem_range.mpr ?_, ?_⟩ <;> omega

theorem pixelIndex_alpha_mod (width : Nat) (x y : Int) (hx : 0 ≤ x) (hy : 0 ≤ y) :
    (pixelIndex width x y + 3).toNat % 4 = 3 := by
  unfold pixelIndex
  have hk : 0 ≤ y * width + x := by positivity
  omega

theorem shadowPixelStep_shrink (width height : Nat) (y : Int) (d : List Nat) (x : Int)
    (hx : 0 ≤ x) (hy : 0 ≤ y) : AlphaShrink d (shadowPixelStep width height y d x) := by
  unfold shadowPixelStep
  dsimp only
  split
  · split
    · exact alphaShrink_set d _ (pixelIndex_alpha_mod width x y hx hy)
    · exact alphaShrink_refl d
  · exact alphaShrink_refl d

theorem shadowSliceStep_shrink (width height : Nat) (shadowWidth : Int) (d : List Nat)
    (s : Int) : AlphaShrink d (shadowSliceStep width height shadowWidth d s) := by
  unfold shadowSliceStep
  refine alphaShrink_foldl _ _ (fun d y hy => ?_) d
  refine alphaShrink_foldl _ _ (fun d x hx => ?_) d
  exact shadowPixelStep_shrink width height y d x (mem_intRange.mp hx).1
    (le_trans (le_max_left 0 _) (mem_intRange.mp hy).1)

theorem removeShadowsAlongSlices_shrink (img : ImageData) (sliceLines : List Int)
    (shadowWidth : Int) :
    AlphaShrink img.data (removeShadowsAlongSlices img sliceLines shadowWidth).data := by
  unfold removeShadowsAlongSlices
  exact alphaShrink_foldl _ _ (fun d s _ => shadowSliceStep_shrink _ _ _ d s) img.data

theorem applyTransparencyMask_shrink (d mask : List Nat) :
    AlphaShrink d (applyTransparencyMask d mask) := by
  unfold applyTransparencyMask
  refine alphaShrink_foldl _ _ (fun d i _ => ?_) d
  split
  · exact alphaShrink_set d _ (by omega)
  · exact alphaShrink_refl d

theorem checkAndRemoveGradient_shrink (d : List Nat) (x y : Int) (width height : Nat)
    (aggressiveness : Int) :
    AlphaShrink d (checkAndRemoveGradient d x y width height aggressiveness) := by
  unfold checkAndRemoveGradient
  dsimp only
  split
  · exact alphaShrink_refl d
  · rename_i hguard
    push_neg at hguard
    have hx : 0 ≤ x := hguard.1
    have hy : 0 ≤ y := hguard.2.2.1
    repeat' split
    all_goals
      first
        | exact alphaShrink_set d _ (pixelIndex_alpha_mod width x y hx hy)
        | exact alphaShrink_refl d

theorem removeGradientShadows_shrink (d : List Nat) (width height : Nat)
    (aggressiveness : Int) :
    AlphaShrink d (removeGradientShadows d width height aggressiveness) := by
  unfold removeGradientShadows
  refine alphaShrink_foldl _ _ (fun d depth _ => ?_) d
  dsimp only
  exact alphaShrink_trans
    (alphaShrink_foldl _ _ (fun d x _ =>
      alphaShrink_trans (checkAndRemoveGradient_shrink d x depth width height _)
        (checkAndRemoveGradient_shrink _ x _ width height _)) d)
    (alphaShrink_foldl _ _ (fun d y _ =>
      alphaShrink_trans (checkAndRemoveGradient_shrink d depth y width height _)
        (checkAndRemoveGradient_shrink _ _ y width height _)) _)

theorem removeSemiTransparentPixels_shrink (d : List Nat) (width height : Nat)
    (aggressiveness : Int) :
    AlphaShrink d (removeSemiTransparentPixels d width height aggressiveness) := by
  unfold removeSemiTransparentPixels
  refine alphaShrink_foldl _ _ (fun d i _ => ?_) d
  dsimp only
  split
  · split
    · exact alphaShrink_set d _ (by omega)
    · exact alphaShrink_refl d
  · exact alphaShrink_refl d

theorem removeBackground_shrink (img : ImageData) (tolerance aggressiveness : Int) :
    AlphaShrink img.data (removeBackground img tolerance aggressiveness).data := by
  unfold removeBackground
  dsimp only
  exact alphaShrink_trans (applyTransparencyMask_shrink img.data _)
    (alphaShrink_trans (removeGradientShadows_shrink _ img.width img.height _)
      (removeSemiTransparentPixels_shrink _ img.width img.height _))

/-! ## Degenerate and empty buffers -/

theorem intRange_eq_nil {lo hi : Int} (h : hi ≤ lo) : intRange lo hi = [] := by
  unfold intRange
  have h0 : (hi - lo).toNat = 0 := by omega
  rw [h0, List.range_zero, List.map_nil]

theorem foldl_fixed {α β : Type} (l : List β) (st : α) : l.foldl (fun st _ => st) st = st := by
  induction l generalizing st with
  | nil => rfl
  | cons a l ih => exact ih st

theorem foldl_of_no_update {α β : Type} (f : α → β → α) (l : List β)
    (hf : ∀ st a, a ∈ l → f st a = st) (st : α) : l.foldl f st = st := by
  induction l generalizing st with
  | nil => rfl
  | cons a l ih =>
    rw [List.foldl_cons, hf st a (List.mem_cons_self a l)]
    exact ih (fun st b hb => hf st b (List.mem_cons_of_mem a hb)) st

theorem findContentBounds_w0 (h : Nat) (d : List Nat) :
    findContentBounds ⟨0, h, d⟩ = some ⟨0, (h : Int), 1, 1 - (h : Int)⟩ := by
  unfold findContentBounds
  simp only [List.range_zero, List.foldl_nil, foldl_fixed]
  norm_num
  omega

theorem measureCornerRadius_nonpos (img : ImageData) (cx cy : Int) (s : Int) (dx dy : Int)
    (hs : s ≤ 0) : measureCornerRadius img cx cy s dx dy = 0 := by
  unfold measureCornerRadius
  rw [intRange_eq_nil hs]
  rfl

theorem analyzeCorners_hasRounding_false (img : ImageData) (b : Bounds)
    (hs : min 20 (Int.fdiv (min b.width b.height) 4) ≤ 0) :
    (analyzeCorners img b).hasRounding = false := by
  unfold analyzeCorners
  dsimp only
  rw [measureCornerRadius_nonpos img _ _ _ _ _ hs, measureCornerRadius_nonpos img _ _ _ _ _ hs,
    measureCornerRadius_nonpos img _ _ _ _ _ hs, measureCornerRadius_nonpos img _ _ _ _ _ hs]
  rfl

/-- A zero-width buffer of height at least 2 decomposes to no shapes: the
degenerate bounds `{x: 0, y: h, width: 1, height: 1 - h}` make every
detector loop empty. -/
theorem decompose_w0_big (h : Nat) (h2 : 2 ≤ h) :
    (decomposeIntoShapes ⟨0, h, []⟩).isEmpty = true ∧
      (decomposeIntoShapes ⟨0, h, []⟩).shapes = [] := by
  have h2i : (2 : Int) ≤ (h : Int) := by exact_mod_cast h2
  have hb := findContentBounds_w0 h []
  have hround : detectRoundedRectangles ⟨0, h, []⟩ ⟨0, (h : Int), 1, 1 - (h : Int)⟩ = [] := by
    have hs : min (20 : Int) (Int.fdiv (min (1 : Int) (1 - (h : Int))) 4) ≤ 0 := by
      have hmin : min (1 : Int) (1 - (h : Int)) = 1 - (h : Int) := by omega
      rw [hmin]
      have hf : Int.fdiv (1 - (h : Int)) 4 ≤ 0 := by
        rw [Int.fdiv_eq_ediv _ (by norm_num)]
        omega
      omega
    unfold detectRoundedRectangles
    dsimp only
    rw [analyzeCorners_hasRounding_false ⟨0, h, []⟩ ⟨0, (h : Int), 1, 1 - (h : Int)⟩ hs]
    rfl
  have hrect : detectRectangles ⟨0, h, []⟩ ⟨0, (h : Int), 1, 1 - (h : Int)⟩ = [] := by
    unfold detectRectangles checkIfRectangle
    dsimp only
    rw [@intRange_eq_nil ((h : Int)) ((h : Int) + (1 - (h : Int))) (by omega), List.foldl_nil]
    split
    · rename_i hcond
      simp only [decide_eq_true_eq] at hcond
      exfalso
      omega
    · rfl
  have hhl : detectHorizontalLines ⟨0, h, []⟩ ⟨0, (h : Int), 1, 1 - (h : Int)⟩ = [] := by
    unfold detectHorizontalLines consolidateLines
    dsimp only
    rw [@intRange_eq_nil ((h : Int)) ((h : Int) + (1 - (h : Int))) (by omega), List.foldl_nil]
  have hvl : detectVerticalLines ⟨0, h, []⟩ ⟨0, (h : Int), 1, 1 - (h : Int)⟩ = [] := by
    unfold detectVerticalLines consolidateLines
    dsimp only
    rw [@intRange_eq_nil ((h : Int)) ((h : Int) + (1 - (h : Int)) + 1) (by omega)]
    simp only [List.foldl_nil]
    exact foldl_fixed _ _
  unfold decomposeIntoShapes
  rw [hb]
  dsimp only
  rw [hround, hrect, hhl, hvl]
  exact ⟨rfl, rfl⟩

/-- Zero-sized buffers (with the buffer length invariant) decompose to an
empty, `isEmpty = true` analysis. -/
theorem decompose_zero_sized (img : ImageData)
    (hlen : img.data.length = img.width * img.height * 4)
    (hz : img.width = 0 ∨ img.height = 0) :
    (decomposeIntoShapes img).isEmpty = true ∧ (decomposeIntoShapes img).shapes = [] := by
  obtain ⟨w, h, data⟩ := img
  simp only at hlen hz
  rcases hz with hw | hh
  · subst hw
    have hd : data = [] := List.length_eq_zero.mp (by simpa using hlen)
    subst hd
    rcases h with _ | h1
    · exact ⟨by decide, by decide⟩
    · rcases h1 with _ | k
      · exact ⟨by decide, by decide⟩
      · exact decompose_w0_big (k + 2) (by omega)
  · subst hh
    rcases Nat.eq_zero_or_pos w with hw | hw
    · subst hw
      have hd : data = [] := List.length_eq_zero.mp (by simpa using hlen)
      subst hd
      exact ⟨by decide, by decide⟩
    · have hb : findContentBounds ⟨w, 0, data⟩ = none := by
        unfold findContentBounds
        simp only [List.range_zero, List.foldl_nil]
        rw [if_pos (by exact_mod_cast hw)]
      unfold decomposeIntoShapes
      rw [hb]
      exact ⟨rfl, rfl⟩

/-- No pixel of the buffer has positive alpha. -/
def NoContent (img : ImageData) : Prop :=
  ∀ y, y < img.height → ∀ x, x < img.width →
    alphaAt img.data img.width (x : Int) (y : Int) = 0

instance (img : ImageData) : Decidable (NoContent img) := by
  unfold NoContent
  infer_instance

theorem findContentBounds_of_noContent (img : ImageData) (hw : 0 < img.width)
    (hnc : NoContent img) : findContentBounds img = none := by
  unfold findContentBounds
  rw [foldl_of_no_update _ _ (fun st y hy =>
    foldl_of_no_update _ _ (fun st x hx =>
      if_neg (by
        rw [hnc y (List.mem_range.mp hy) x (List.mem_range.mp hx)]
        exact lt_irrefl 0)) st)]
  dsimp only
  rw [if_pos (by exact_mod_cast hw)]

theorem decompose_isEmpty_iff (img : ImageData) :
    (decomposeIntoShapes img).isEmpty = true ↔ (decomposeIntoShapes img).shapes = [] := by
  unfold decomposeIntoShapes
  cases hfc : findContentBounds img with
  | none => simp
  | some b =>
    dsimp only
    simp [List.length_eq_zero]

theorem noContent_isEmpty (img : ImageData)
    (hlen : img.data.length = img.width * img.height * 4) (hnc : NoContent img) :
    (decomposeIntoShapes img).isEmpty = true := by
  rcases Nat.eq_zero_or_pos img.width with hw | hw
  · exact (decompose_zero_sized img hlen (Or.inl hw)).1
  · unfold decomposeIntoShapes
    rw [findContentBounds_of_noContent img hw hnc]

/-! ## Soundness of the edge flood fill

`floodFillFromEdges` marks an index only if it is a mask candidate
reachable from an image edge through 4-connected mask candidates. -/

/-- Indices seeded into the flood-fill queue: the four image edges. -/
def EdgeIdx (width height : Nat) (i : Nat) : Prop :=
  (∃ x, x < width ∧ (i = x ∨ i = (height - 1) * width + x)) ∨
  (∃ y, y < height ∧ (i = y * width ∨ i = y * width + width - 1))

/-- `j` is one of the 4-neighbors the flood fill pushes from `i`. -/
def AdjIdx (width height : Nat) (i j : Nat) : Prop :=
  (0 < i % width ∧ j = i - 1) ∨ (i % width < width - 1 ∧ j = i + 1) ∨
  (0 < i / width ∧ j = i - width) ∨ (i / width < height - 1 ∧ j = i + width)

/-- Reachability from an image edge through 4-connected mask candidates
(every index on the path, endpoints included, is a mask candidate). -/
inductive ReachBG (mask : List Nat) (width height : Nat) : Nat → Prop where
  | edge (i : Nat) : EdgeIdx width height i → mask.getD i 0 ≠ 0 →
      ReachBG mask width height i
  | step (i j : Nat) : ReachBG mask width height i → AdjIdx width height i j →
      mask.getD j 0 ≠ 0 → ReachBG mask width height j

theorem ReachBG.mask_ne_zero {mask : List Nat} {width height i : Nat}
    (h : ReachBG mask width height i) : mask.getD i 0 ≠ 0 := by
  cases h with
  | edge _ _ hm => exact hm
  | step _ _ _ _ hm => exact hm

theorem floodLoop_sound (mask : List Nat) (width height : Nat)
    (queue visited result : List Nat) (hv : visited.length = mask.length) :
    (∀ i, result.getD i 0 = 1 → ReachBG mask width height i) →
    (∀ j ∈ queue, EdgeIdx width height j ∨
      ∃ i, result.getD i 0 = 1 ∧ AdjIdx width height i j) →
    result.length = mask.length →
    ∀ i, (floodLoop mask width height queue visited result hv).getD i 0 = 1 →
      ReachBG mask width height i := by
  refine floodLoop.induct mask width height
    (fun queue visited result hv =>
      (∀ i, result.getD i 0 = 1 → ReachBG mask width height i) →
      (∀ j ∈ queue, EdgeIdx width height j ∨
        ∃ i, result.getD i 0 = 1 ∧ AdjIdx width height i j) →
      result.length = mask.length →
      ∀ i, (floodLoop mask width height queue visited result hv).getD i 0 = 1 →
        ReachBG mask width height i)
    ?_ ?_ ?_ queue visited result hv
  · intro visited result hv hres _ _ i hget
    rw [floodLoop] at hget
    exact hres i hget
  · intro visited result hv index rest hskip ih hres hqueue hrl i hget
    rw [floodLoop, dif_pos hskip] at hget
    exact ih hres (fun j hj => hqueue j (List.mem_cons_of_mem _ hj)) hrl i hget
  · intro visited result hv index rest hvisit
    dsimp only
    intro ih hres hqueue hrl i hget
    rw [floodLoop, dif_neg hvisit] at hget
    have hmne : mask.getD index 0 ≠ 0 := fun h0 => hvisit (Or.inr h0)
    have hmlt : index < mask.length := by
      by_contra hge
      exact hmne (List.getD_eq_default _ _ (Nat.le_of_not_lt hge))
    have hrlt : index < result.length := by omega
    have hreach_index : ReachBG mask width height index := by
      rcases hqueue index (List.mem_cons_self _ _) with hedge | ⟨i0, hi0, hadj⟩
      · exact ReachBG.edge index hedge hmne
      · exact ReachBG.step i0 index (hres i0 hi0) hadj hmne
    have hres' : ∀ i2, (result.set index 1).getD i2 0 = 1 → ReachBG mask width height i2 := by
      intro i2 hgi2
      by_cases hi2 : index = i2
      · exact hi2 ▸ hreach_index
      · exact hres i2 (by rwa [getD_set_of_ne _ _ _ _ hi2] at hgi2)
    have hkeep : ∀ i0, result.getD i0 0 = 1 → (result.set index 1).getD i0 0 = 1 := by
      intro i0 h1
      by_cases hi0 : index = i0
      · subst hi0
        exact getD_set_same result index 1 hrlt
      · rwa [getD_set_of_ne _ _ _ _ hi0]
    have hqueue' : ∀ j, j ∈ rest ++
        ((((if h : 0 < index % width then [index - 1] else []) ++
          (if h : index % width < width - 1 then [index + 1] else [])) ++
          (if h : 0 < index / width then [index - width] else [])) ++
          (if h : index / width < height - 1 then [index + width] else [])) →
        EdgeIdx width height j ∨
          ∃ i0, (result.set index 1).getD i0 0 = 1 ∧ AdjIdx width height i0 j := by
      intro j hj
      rcases List.mem_append.mp hj with hjr | hjp
      · rcases hqueue j (List.mem_cons_of_mem _ hjr) with hedge | ⟨i0, hi0, hadj⟩
        · exact Or.inl hedge
        · exact Or.inr ⟨i0, hkeep i0 hi0, hadj⟩
      · have hset : (result.set index 1).getD index 0 = 1 := getD_set_same result index 1 hrlt
        have hadj : AdjIdx width height index j := by
          rcases List.mem_append.mp hjp with hjp3 | hjp4
          · rcases List.mem_append.mp hjp3 with hjp1 | hjp2
            · rcases List.mem_append.mp hjp1 with hjpa | hjpb
              · by_cases hx : 0 < index % width
                · rw [dif_pos hx] at hjpa
                  rcases List.mem_singleton.mp hjpa with rfl
                  exact Or.inl ⟨hx, rfl⟩
                · rw [dif_neg hx] at hjpa
                  exact absurd hjpa (List.not_mem_nil j)
              · by_cases hx : index % width < width - 1
                · rw [dif_pos hx] at hjpb
                  rcases List.mem_singleton.mp hjpb with rfl
                  exact Or.inr (Or.inl ⟨hx, rfl⟩)
                · rw [dif_neg hx] at hjpb
                  exact absurd hjpb (List.not_mem_nil j)
            · by_cases hy : 0 < index / width
              · rw [dif_pos hy] at hjp2
                rcases List.mem_singleton.mp hjp2 with rfl
                exact Or.inr (Or.inr (Or.inl ⟨hy, rfl⟩))
              · rw [dif_neg hy] at hjp2
                exact absurd hjp2 (List.not_mem_nil j)
          · by_cases hy : index / width < height - 1
            · rw [dif_pos hy] at hjp4
              rcases List.mem_singleton.mp hjp4 with rfl
              exact Or.inr (Or.inr (Or.inr ⟨hy, rfl⟩))
            · rw [dif_neg hy] at hjp4
              exact absurd hjp4 (List.not_mem_nil j)
        exact Or.inr ⟨index, hset, hadj⟩
    have hrl' : (result.set index 1).length = mask.length := by
      rw [List.length_set]
      exact hrl
    exact ih hres' hqueue' hrl' i hget

theorem floodFillFromEdges_sound (mask : List Nat) (width height : Nat)
    (hm : mask.length = width * height) (i : Nat)
    (hget : (floodFillFromEdges mask width height hm).getD i 0 = 1) :
    mask.getD i 0 ≠ 0 ∧ ReachBG mask width height i := by
  have hrepl : ∀ j, (List.replicate (width * height) (0 : Nat)).getD j 0 = 0 := by
    intro j
    simp [List.getD_eq_getElem?_getD, List.getElem?_replicate]
    split <;> rfl
  unfold floodFillFromEdges at hget
  have hsound := floodLoop_sound mask width height _ _ _ _
    (fun j h1 => absurd h1 (by rw [hrepl j]; exact zero_ne_one))
    (fun j hj => by
      left
      rcases List.mem_append.mp hj with hjt | hjs
      · obtain ⟨x, hx, hjx⟩ := List.mem_flatMap.mp hjt
        rw [List.mem_range] at hx
        rw [List.mem_cons, List.mem_singleton] at hjx
        rcases hjx with hj1 | hj1
        · exact Or.inl ⟨x, hx, Or.inl hj1⟩
        · exact Or.inl ⟨x, hx, Or.inr hj1⟩
      · obtain ⟨y, hy, hjy⟩ := List.mem_flatMap.mp hjs
        rw [List.mem_range] at hy
        rw [List.mem_cons, List.mem_singleton] at hjy
        rcases hjy with hj1 | hj1
        · exact Or.inr ⟨y, hy, Or.inl hj1⟩
        · exact Or.inr ⟨y, hy, Or.inr hj1⟩)
    (by rw [List.length_replicate, hm]) i hget
  exact ⟨hsound.mask_ne_zero, hsound⟩

theorem createBackgroundMask_sound (img : ImageData) (backgroundColor : Color)
    (tolerance : Int) (i : Nat)
    (hget : (createBackgroundMask img backgroundColor tolerance).getD i 0 = 1) :
    isBackgroundCandidate img.data backgroundColor tolerance i = true ∧
      ReachBG (initialBackgroundMask img backgroundColor tolerance)
        img.width img.height i := by
  unfold createBackgroundMask at hget
  obtain ⟨hne, hreach⟩ := floodFillFromEdges_sound _ _ _ _ i hget
  refine ⟨?_, hreach⟩
  unfold initialBackgroundMask at hne
  by_cases hi : i < img.width * img.height
  · rw [List.getD_eq_getElem?_getD, List.getElem?_map, List.getElem?_range hi] at hne
    simp only [Option.map_some', Option.getD_some] at hne
    by_cases hc : isBackgroundCandidate img.data backgroundColor tolerance i = true
    · exact hc
    · rw [if_neg hc] at hne
      exact absurd rfl hne
  · rw [List.getD_eq_default _ _ (by simpa using Nat.le_of_not_lt hi)] at hne
    exact absurd rfl hne

/-! ## Minimum-gap monotonicity

For groups listed in strictly increasing center order, enlarging the
minimum gap never increases the number of retained groups.  The loop
invariant relates the two runs (gap `g1 ≤ g2`): the `g2` run never has
more kept groups; when its last kept group is centered before the `g1`
run's, it is at least as wide; when it is centered after, the `g2` run is
strictly behind in count and its last kept group is at least as wide. -/

theorem enforceLoop_length_mono (g1 g2 : Int) (hg : g1 ≤ g2) (rest : List DividerGroup) :
    ∀ (f1 f2 : List DividerGroup) (l1 l2 : DividerGroup),
      List.Pairwise (fun a b => a.center < b.center) rest →
      (∀ g ∈ rest, l1.center < g.center) → (∀ g ∈ rest, l2.center < g.center) →
      0 < f1.length → 0 < f2.length → f2.length ≤ f1.length →
      (l1.center < l2.center → l2.width ≤ l1.width) →
      (l2.center < l1.center → f2.length < f1.length ∧ l1.width ≤ l2.width) →
      (l1.center = l2.center → l1.width = l2.width) →
      (enforceLoop g2 f2 l2 rest).length ≤ (enforceLoop g1 f1 l1 rest).length := by
  induction rest with
  | nil =>
    intro f1 f2 l1 l2 _ _ _ _ _ hle _ _ _
    simpa [enforceLoop] using hle
  | cons cur rest ih =>
    intro f1 f2 l1 l2 hpw hl1 hl2 hf1 hf2 hle hI1 hI2 hI3
    obtain ⟨hcur', hpw'⟩ := List.pairwise_cons.mp hpw
    have hc1 : l1.center < cur.center := hl1 cur (List.mem_cons_self _ _)
    have hc2 : l2.center < cur.center := hl2 cur (List.mem_cons_self _ _)
    have hl1' : ∀ g ∈ rest, l1.center < g.center :=
      fun g hgm => hl1 g (List.mem_cons_of_mem _ hgm)
    have hl2' : ∀ g ∈ rest, l2.center < g.center :=
      fun g hgm => hl2 g (List.mem_cons_of_mem _ hgm)
    simp only [enforceLoop]
    by_cases hk1 : g1 ≤ cur.center - l1.center
    · rw [if_pos hk1]
      by_cases hk2 : g2 ≤ cur.center - l2.center
      · -- keep / keep
        rw [if_pos hk2]
        refine ih (f1 ++ [cur]) (f2 ++ [cur]) cur cur hpw' hcur' hcur' ?_ ?_ ?_ ?_ ?_ ?_
        · simp
        · simp
        · simp only [List.length_append, List.length_cons, List.length_nil]
          omega
        · intro h
          omega
        · intro h
          omega
        · intro _
          rfl
      · rw [if_neg hk2]
        by_cases hr2 : l2.width < cur.width
        · -- keep / replace
          rw [if_pos hr2]
          refine ih (f1 ++ [cur]) (f2.dropLast ++ [cur]) cur cur hpw' hcur' hcur'
            ?_ ?_ ?_ ?_ ?_ ?_
          · simp
          · simp
          · simp only [List.length_append, List.length_dropLast, List.length_cons,
              List.length_nil]
            omega
          · intro h
            omega
          · intro h
            omega
          · intro _
            rfl
        · -- keep / skip
          rw [if_neg hr2]
          refine ih (f1 ++ [cur]) f2 cur l2 hpw' hcur' hl2' ?_ hf2 ?_ ?_ ?_ ?_
          · simp
          · simp only [List.length_append, List.length_cons, List.length_nil]
            omega
          · intro h
            omega
          · intro _
            refine ⟨?_, by omega⟩
            simp only [List.length_append, List.length_cons, List.length_nil]
            omega
          · intro h
            omega
    · rw [if_neg hk1]
      by_cases hr1 : l1.width < cur.width
      · rw [if_pos hr1]
        by_cases hk2 : g2 ≤ cur.center - l2.center
        · -- replace / keep
          rw [if_pos hk2]
          have hcc : l2.center < l1.center := by omega
          obtain ⟨hflt, hw12⟩ := hI2 hcc
          refine ih (f1.dropLast ++ [cur]) (f2 ++ [cur]) cur cur hpw' hcur' hcur'
            ?_ ?_ ?_ ?_ ?_ ?_
          · simp only [List.length_append, List.length_dropLast, List.length_cons,
              List.length_nil]
            omega
          · simp
          · simp only [List.length_append, List.length_dropLast, List.length_cons,
              List.length_nil]
            omega
          · intro h
            omega
          · intro h
            omega
          · intro _
            rfl
        · rw [if_neg hk2]
          by_cases hr2 : l2.width < cur.width
          · -- replace / replace
            rw [if_pos hr2]
            refine ih (f1.dropLast ++ [cur]) (f2.dropLast ++ [cur]) cur cur hpw' hcur' hcur'
              ?_ ?_ ?_ ?_ ?_ ?_
            · simp only [List.length_append, List.length_dropLast, List.length_cons,
                List.length_nil]
              omega
            · simp only [List.length_append, List.length_dropLast, List.length_cons,
                List.length_nil]
              omega
            · simp only [List.length_append, List.length_dropLast, List.length_cons,
                List.length_nil]
              omega
            · intro h
              omega
            · intro h
              omega
            · intro _
              rfl
          · -- replace / skip
            rw [if_neg hr2]
            have hcc : l2.center < l1.center := by
              rcases lt_trichotomy l1.center l2.center with h | h | h
              · have := hI1 h
                omega
              · have := hI3 h
                omega
              · exact h
            obtain ⟨hflt, hw12⟩ := hI2 hcc
            refine ih (f1.dropLast ++ [cur]) f2 cur l2 hpw' hcur' hl2' ?_ hf2 ?_ ?_ ?_ ?_
            · simp only [List.length_append, List.length_dropLast, List.length_cons,
                List.length_nil]
              omega
            · simp only [List.length_append, List.length_dropLast, List.length_cons,
                List.length_nil]
              omega
            · intro h
              omega
            · intro _
              refine ⟨?_, by omega⟩
              simp only [List.length_append, List.length_dropLast, List.length_cons,
                List.length_nil]
              omega
            · intro h
              omega
      · rw [if_neg hr1]
        by_cases hk2 : g2 ≤ cur.center - l2.center
        · -- skip / keep
          rw [if_pos hk2]
          have hcc : l2.center < l1.center := by omega
          obtain ⟨hflt, hw12⟩ := hI2 hcc
          refine ih f1 (f2 ++ [cur]) l1 cur hpw' hl1' hcur' hf1 ?_ ?_ ?_ ?_ ?_
          · simp
          · simp only [List.length_append, List.length_cons, List.length_nil]
            omega
          · intro _
            omega
          · intro h
            omega
          · intro h
            omega
        · rw [if_neg hk2]
          by_cases hr2 : l2.width < cur.width
          · -- skip / replace
            rw [if_pos hr2]
            refine ih f1 (f2.dropLast ++ [cur]) l1 cur hpw' hl1' hcur' hf1 ?_ ?_ ?_ ?_ ?_
            · simp only [List.length_append, List.length_dropLast, List.length_cons,
                List.length_nil]
              omega
            · simp only [List.length_append, List.length_dropLast, List.length_cons,
                List.length_nil]
              omega
            · intro _
              omega
            · intro h
              omega
            · intro h
              omega
          · -- skip / skip
            rw [if_neg hr2]
            exact ih f1 f2 l1 l2 hpw' hl1' hl2' hf1 hf2 hle hI1 hI2 hI3

/-- Monotonicity of `enforceMinimumGap` in the gap, for group lists in
strictly increasing center order. -/
theorem enforceMinimumGap_length_mono (groups : List DividerGroup) (g1 g2 : Int)
    (hg : g1 ≤ g2)
    (hsorted : List.Pairwise (fun a b => a.center < b.center) groups) :
    (enforceMinimumGap groups g2).length ≤ (enforceMinimumGap groups g1).length := by
  cases groups with
  | nil => simp [enforceMinimumGap]
  | cons first rest =>
    simp only [enforceMinimumGap]
    obtain ⟨hfirst, hpw⟩ := List.pairwise_cons.mp hsorted
    exact enforceLoop_length_mono g1 g2 hg rest [first] [first] first first hpw
      hfirst hfirst (by simp) (by simp) le_rfl
      (fun h => absurd h (lt_irrefl _)) (fun h => absurd h (lt_irrefl _)) (fun _ => rfl)

/-! ## Strictly increasing slices and positive cells -/

theorem fdiv2 (a : Int) : Int.fdiv a 2 = a / 2 := Int.fdiv_eq_ediv a (by norm_num)

theorem consolidateLoop_spec (rest : List Int) : ∀ gs ge : Int, gs ≤ ge →
    (∀ d ∈ rest, ge + 1 ≤ d) → List.Pairwise (· < ·) rest →
    List.Pairwise (fun a b => a.center < b.center) (consolidateLoop gs ge rest) ∧
    ∀ g ∈ consolidateLoop gs ge rest,
      gs ≤ g.center ∧ g.center = Int.fdiv (g.start + g.stop + 1) 2 := by
  induction rest with
  | nil =>
    intro gs ge hge _ _
    simp only [consolidateLoop]
    refine ⟨List.pairwise_singleton _ _, ?_⟩
    intro g hg
    rcases List.mem_singleton.mp hg with rfl
    refine ⟨?_, rfl⟩
    unfold mkGroup
    dsimp only
    rw [fdiv2]
    omega
  | cons d rest ih =>
    intro gs ge hge hmin hpw
    obtain ⟨hd_rest, hpw'⟩ := List.pairwise_cons.mp hpw
    have hd : ge + 1 ≤ d := hmin d (List.mem_cons_self _ _)
    simp only [consolidateLoop]
    by_cases hcase : d = ge + 1
    · rw [if_pos hcase]
      exact ih gs d (by omega) (fun d' hd' => by have := hd_rest d' hd'; omega) hpw'
    · rw [if_neg hcase]
      obtain ⟨hpw2, hbound⟩ :=
        ih d d le_rfl (fun d' hd' => by have := hd_rest d' hd'; omega) hpw'
      constructor
      · rw [List.pairwise_cons]
        refine ⟨fun g hg => ?_, hpw2⟩
        have h1 := (hbound g hg).1
        unfold mkGroup
        dsimp only
        rw [fdiv2]
        omega
      · intro g hg
        rcases List.mem_cons.mp hg with rfl | hg'
        · refine ⟨?_, rfl⟩
          unfold mkGroup
          dsimp only
          rw [fdiv2]
          omega
        · have := hbound g hg'
          exact ⟨by omega, this.2⟩

theorem consolidate_spec (divs : List Int) (hpw : List.Pairwise (· < ·) divs) :
    List.Pairwise (fun a b => a.center < b.center) (consolidateDividersToGroups divs) ∧
    ∀ g ∈ consolidateDividersToGroups divs,
      g.center = Int.fdiv (g.start + g.stop + 1) 2 := by
  cases divs with
  | nil =>
    simp only [consolidateDividersToGroups]
    exact ⟨List.Pairwise.nil, fun g hg => absurd hg (List.not_mem_nil g)⟩
  | cons d rest =>
    obtain ⟨hd, hpw'⟩ := List.pairwise_cons.mp hpw
    simp only [consolidateDividersToGroups]
    obtain ⟨h1, h2⟩ := consolidateLoop_spec rest d d le_rfl
      (fun d' hd' => by have := hd d' hd'; omega) hpw'
    exact ⟨h1, fun g hg => (h2 g hg).2⟩

theorem refine_eq_self (gs : List DividerGroup)
    (h : ∀ g ∈ gs, g.center = Int.fdiv (g.start + g.stop + 1) 2) :
    refineDividerCenters gs = gs := by
  unfold refineDividerCenters
  induction gs with
  | nil => rfl
  | cons g rest ih =>
    rw [List.map_cons]
    congr 1
    · obtain ⟨s, e, c, w⟩ := g
      have hc := h _ (List.mem_cons_self _ _)
      dsimp only at hc ⊢
      rw [hc]
    · exact ih (fun g hg => h g (List.mem_cons_of_mem _ hg))

theorem enforceLoop_pairwise (minGap : Int) (rest : List DividerGroup) :
    ∀ (filtered : List DividerGroup) (lastKept : DividerGroup),
      List.Pairwise (fun a b => a.center < b.center) filtered →
      (∀ g ∈ filtered, g.center ≤ lastKept.center) →
      List.Pairwise (fun a b => a.center < b.center) rest →
      (∀ g ∈ rest, lastKept.center < g.center) →
      List.Pairwise (fun a b => a.center < b.center)
        (enforceLoop minGap filtered lastKept rest) := by
  induction rest with
  | nil =>
    intro f l hf _ _ _
    simpa [enforceLoop] using hf
  | cons cur rest ih =>
    intro f l hf hfl hpw hrest
    obtain ⟨hcur_rest, hpw'⟩ := List.pairwise_cons.mp hpw
    have hc : l.center < cur.center := hrest cur (List.mem_cons_self _ _)
    simp only [enforceLoop]
    by_cases hk : minGap ≤ cur.center - l.center
    · rw [if_pos hk]
      refine ih (f ++ [cur]) cur ?_ ?_ hpw' (fun g hg => hcur_rest g hg)
      · rw [List.pairwise_append]
        refine ⟨hf, List.pairwise_singleton _ _, fun a ha b hb => ?_⟩
        rcases List.mem_singleton.mp hb with rfl
        exact lt_of_le_of_lt (hfl a ha) hc
      · intro g hg
        rcases List.mem_append.mp hg with hga | hgb
        · exact le_of_lt (lt_of_le_of_lt (hfl g hga) hc)
        · rcases List.mem_singleton.mp hgb with rfl
          exact le_rfl
    · rw [if_neg hk]
      by_cases hr : l.width < cur.width
      · rw [if_pos hr]
        refine ih (f.dropLast ++ [cur]) cur ?_ ?_ hpw' (fun g hg => hcur_rest g hg)
        · rw [List.pairwise_append]
          refine ⟨hf.sublist (List.dropLast_sublist f), List.pairwise_singleton _ _,
            fun a ha b hb => ?_⟩
          rcases List.mem_singleton.mp hb with rfl
          exact lt_of_le_of_lt (hfl a ((List.dropLast_sublist f).subset ha)) hc
        · intro g hg
          rcases List.mem_append.mp hg with hga | hgb
          · exact le_of_lt
              (lt_of_le_of_lt (hfl g ((List.dropLast_sublist f).subset hga)) hc)
          · rcases List.mem_singleton.mp hgb with rfl
            exact le_rfl
      · rw [if_neg hr]
        exact ih f l hf hfl hpw' (fun g hg => hrest g (List.mem_cons_of_mem _ hg))

theorem enforceMinimumGap_pairwise (groups : List DividerGroup) (minGap : Int)
    (h : List.Pairwise (fun a b => a.center < b.center) groups) :
    List.Pairwise (fun a b => a.center < b.center) (enforceMinimumGap groups minGap) := by
  cases groups with
  | nil => simp [enforceMinimumGap]
  | cons first rest =>
    obtain ⟨h1, h2⟩ := List.pairwise_cons.mp h
    simp only [enforceMinimumGap]
    refine enforceLoop_pairwise minGap rest [first] first (List.pairwise_singleton _ _)
      ?_ h2 h1
    intro g hg
    rcases List.mem_singleton.mp hg with rfl
    exact le_rfl

/-- The full slice pipeline (consolidate, refine, minimum gap, project
centers) yields a strictly increasing list from strictly increasing
divider coordinates. -/
theorem slices_pairwise (divs : List Int) (hdivs : List.Pairwise (· < ·) divs)
    (minGap : Int) :
    List.Pairwise (· < ·)
      ((enforceMinimumGap (refineDividerCenters (consolidateDividersToGroups divs))
        minGap).map (fun g => g.center)) := by
  obtain ⟨h1, h2⟩ := consolidate_spec divs hdivs
  rw [refine_eq_self _ h2]
  exact List.pairwise_map.mpr (enforceMinimumGap_pairwise _ minGap h1)

/-- Divider coordinate lists produced by the uniform-row/column scans are
strictly increasing. -/
theorem scan_dividers_pairwise (n : Nat) (p : Nat → Bool) :
    List.Pairwise (· < ·) (((List.range n).filter p).map fun k : Nat => (k : Int)) := by
  refine List.pairwise_map.mpr ?_
  have h1 : (List.range n).Pairwise (· < ·) := List.pairwise_lt_range n
  exact (h1.filter p).imp (fun hab => by exact_mod_cast hab)

theorem computeCells_pos (hls vls : List Int) (w h : Nat) (ob : OuterBorders)
    (hhp : List.Pairwise (· < ·) hls) (hvp : List.Pairwise (· < ·) vls)
    (hne : ¬(hls = [] ∧ vls = [])) :
    ∀ c ∈ computeCells hls vls w h ob, 0 < c.width ∧ 0 < c.height := by
  intro c hc
  unfold computeCells at hc
  rw [if_neg hne] at hc
  obtain ⟨row, hrowm, hc2⟩ := List.mem_flatMap.mp hc
  rw [List.mem_range] at hrowm
  obtain ⟨col, hcolm, heq⟩ := List.mem_map.mp hc2
  rw [List.mem_range] at hcolm
  subst heq
  have hcl : col < vls.length := by omega
  have hcl1 : col + 1 < vls.length := by omega
  have hrl : row < hls.length := by omega
  have hrl1 : row + 1 < hls.length := by omega
  constructor
  · dsimp only
    have := List.pairwise_iff_getElem.mp hvp col (col + 1) hcl hcl1 (by omega)
    rw [List.getD_eq_getElem _ _ hcl, List.getD_eq_getElem _ _ hcl1]
    omega
  · dsimp only
    have := List.pairwise_iff_getElem.mp hhp row (row + 1) hrl hrl1 (by omega)
    rw [List.getD_eq_getElem _ _ hrl, List.getD_eq_getElem _ _ hrl1]
    omega

/-! ## Shape types emitted by the detectors -/

theorem foldl_lines_pred (P : Shape → Prop) {β : Type} (f : LineScan → β → LineScan)
    (hf : ∀ st b, ∀ s ∈ (f st b).lines, s ∈ st.lines ∨ P s) (l : List β) :
    ∀ st, ∀ s ∈ (l.foldl f st).lines, s ∈ st.lines ∨ P s := by
  induction l with
  | nil => exact fun st s hs => Or.inl hs
  | cons b l ih =>
    intro st s hs
    rcases ih (f st b) s hs with hmem | hp
    · exact hf st b s hmem
    · exact Or.inr hp

theorem foldl_acc_pred (P : Shape → Prop) {β : Type} (g : List Shape → β → List Shape)
    (hg : ∀ acc b, ∀ s ∈ g acc b, s ∈ acc ∨ P s) (l : List β) :
    ∀ acc, ∀ s ∈ l.foldl g acc, s ∈ acc ∨ P s := by
  induction l with
  | nil => exact fun acc s hs => Or.inl hs
  | cons b l ih =>
    intro acc s hs
    rcases ih (g acc b) s hs with hmem | hp
    · exact hg acc b s hmem
    · exact Or.inr hp

theorem hLineStep_types (img : ImageData) (b : Bounds) (y : Int) :
    ∀ (st : LineScan) (x : Int), ∀ s ∈ (hLineStep img b y st x).lines,
      s ∈ st.lines ∨ s.type = ShapeType.horizontalLine := by
  intro st x s hs
  unfold hLineStep at hs
  dsimp only at hs
  repeat' first
    | split at hs
    | dsimp only at hs
  all_goals try exact Or.inl hs
  all_goals rcases List.mem_append.mp hs with hmem | hone
  all_goals try exact Or.inl hmem
  all_goals rcases List.mem_singleton.mp hone with rfl
  all_goals exact Or.inr rfl

theorem vLineStep_types (img : ImageData) (b : Bounds) (x : Int) :
    ∀ (st : LineScan) (y : Int), ∀ s ∈ (vLineStep img b x st y).lines,
      s ∈ st.lines ∨ s.type = ShapeType.verticalLine := by
  intro st y s hs
  unfold vLineStep at hs
  dsimp only at hs
  repeat' first
    | split at hs
    | dsimp only at hs
  all_goals try exact Or.inl hs
  all_goals rcases List.mem_append.mp hs with hmem | hone
  all_goals try exact Or.inl hmem
  all_goals rcases List.mem_singleton.mp hone with rfl
  all_goals exact Or.inr rfl

theorem detectHorizontalLines_types (img : ImageData) (b : Bounds) :
    ∀ s ∈ detectHorizontalLines img b, s.type = ShapeType.horizontalLine := by
  intro s hs
  unfold detectHorizontalLines consolidateLines at hs
  have := foldl_acc_pred (fun s => s.type = ShapeType.horizontalLine)
    (fun acc y => ((intRange b.x (b.x + b.width + 1)).foldl (hLineStep img b y)
      { lineStart := none, lineColor := none, lines := acc }).lines)
    (fun acc y s hsm => by
      rcases foldl_lines_pred _ (hLineStep img b y) (hLineStep_types img b y) _ _ s hsm with
        hmem | hp
      · exact Or.inl hmem
      · exact Or.inr hp)
    (intRange b.y (b.y + b.height)) [] s hs
  rcases this with hmem | hp
  · exact absurd hmem (List.not_mem_nil s)
  · exact hp

theorem detectVerticalLines_types (img : ImageData) (b : Bounds) :
    ∀ s ∈ detectVerticalLines img b, s.type = ShapeType.verticalLine := by
  intro s hs
  unfold detectVerticalLines consolidateLines at hs
  have := foldl_acc_pred (fun s => s.type = ShapeType.verticalLine)
    (fun acc x => ((intRange b.y (b.y + b.height + 1)).foldl (vLineStep img b x)
      { lineStart := none, lineColor := none, lines := acc }).lines)
    (fun acc x s hsm => by
      rcases foldl_lines_pred _ (vLineStep img b x) (vLineStep_types img b x) _ _ s hsm with
        hmem | hp
      · exact Or.inl hmem
      · exact Or.inr hp)
    (intRange b.x (b.x + b.width)) [] s hs
  rcases this with hmem | hp
  · exact absurd hmem (List.not_mem_nil s)
  · exact hp

theorem detectRoundedRectangles_types (img : ImageData) (b : Bounds) :
    ∀ s ∈ detectRoundedRectangles img b, s.type = ShapeType.roundedRectangle := by
  intro s hs
  unfold detectRoundedRectangles at hs
  dsimp only at hs
  split at hs
  · rcases List.mem_singleton.mp hs with rfl
    rfl
  · exact absurd hs (List.not_mem_nil s)

theorem detectRectangles_types (img : ImageData) (b : Bounds) :
    ∀ s ∈ detectRectangles img b, s.type = ShapeType.rectangle := by
  intro s hs
  unfold detectRectangles at hs
  split at hs
  · rcases List.mem_singleton.mp hs with rfl
    rfl
  · exact absurd hs (List.not_mem_nil s)

/-- Exclusivity: rounded-rectangle and plain rectangle shapes never occur
together in the result of `decomposeIntoShapes`. -/
theorem decompose_exclusive (img : ImageData)
    (hr : ∃ s ∈ (decomposeIntoShapes img).shapes, s.type = ShapeType.roundedRectangle) :
    ∀ s ∈ (decomposeIntoShapes img).shapes, s.type ≠ ShapeType.rectangle := by
  intro s hs
  unfold decomposeIntoShapes at hr hs
  rcases hfc : findContentBounds img with _ | b
  · rw [hfc] at hr
    obtain ⟨s0, hs0, _⟩ := hr
    exact absurd hs0 (List.not_mem_nil s0)
  · rw [hfc] at hr hs
    dsimp only at hr hs
    by_cases hrr : 0 < (detectRoundedRectangles img b).length
    · rw [if_pos hrr] at hs
      rcases List.mem_append.mp hs with hs1 | hs2
      · rcases List.mem_append.mp hs1 with hs3 | hs4
        · rw [detectRoundedRectangles_types img b s hs3]
          intro hcontra
          exact ShapeType.noConfusion hcontra
        · rw [detectHorizontalLines_types img b s hs4]
          intro hcontra
          exact ShapeType.noConfusion hcontra
      · rw [detectVerticalLines_types img b s hs2]
        intro hcontra
        exact ShapeType.noConfusion hcontra
    · rw [if_neg hrr] at hr
      obtain ⟨s0, hs0, hs0t⟩ := hr
      rcases List.mem_append.mp hs0 with hs1 | hs2
      · rcases List.mem_append.mp hs1 with hs3 | hs4
        · rw [detectRectangles_types img b s0 hs3] at hs0t
          exact ShapeType.noConfusion hs0t
        · rw [detectHorizontalLines_types img b s0 hs4] at hs0t
          exact ShapeType.noConfusion hs0t
      · rw [detectVerticalLines_types img b s0 hs2] at hs0t
        exact ShapeType.noConfusion hs0t

/-! ## Concrete fixtures -/

/-- 2×2 buffer whose pixels (0,0) and (1,1) have alpha 100 and all other
pixels are fully transparent. -/
def img2x2 : ImageData := ⟨2, 2, [10, 0, 0, 100, 0, 0, 0, 0, 0, 0, 0, 0, 10, 0, 0, 100]⟩

/-- 50×4 buffer in which every pixel is fully opaque red. -/
def redStrip : ImageData := ⟨50, 4, (List.replicate 200 [255, 0, 0, 255]).flatten⟩

/-- 2×1 buffer: one red pixel, one black pixel (both opaque). -/
def img2x1 : ImageData := ⟨2, 1, [255, 0, 0, 255, 0, 0, 0, 255]⟩

/-- 3×3 buffer, fully transparent except the center pixel with alpha 150. -/
def img3x3s : ImageData :=
  ⟨3, 3, [0, 0, 0, 0, 0, 0, 0, 0, 0, 0, 0, 0,
          0, 0, 0, 0, 0, 0, 0, 150, 0, 0, 0, 0,
          0, 0, 0, 0, 0, 0, 0, 0, 0, 0, 0, 0]⟩

/-- 3×3 buffer, fully transparent except the center pixel with alpha 100. -/
def img3x3w : ImageData :=
  ⟨3, 3, [0, 0, 0, 0, 0, 0, 0, 0, 0, 0, 0, 0,
          0, 0, 0, 0, 0, 0, 0, 100, 0, 0, 0, 0,
          0, 0, 0, 0, 0, 0, 0, 0, 0, 0, 0, 0]⟩

/-- 8×8 buffer, fully opaque red except a transparent top-left pixel. -/
def img8x8 : ImageData :=
  ⟨8, 8, (List.range 64).flatMap fun i => if i = 0 then [0, 0, 0, 0] else [255, 0, 0, 255]⟩

/-- 1×1 fully opaque white buffer. -/
def img1x1 : ImageData := ⟨1, 1, [255, 255, 255, 255]⟩

/-- `true` for shapes with `type: 'horizontal-line'`. -/
def isHorizontalLineShape (s : Shape) : Bool := s.type == ShapeType.horizontalLine

/-- `true` for shapes with `type: 'vertical-line'`. -/
def isVerticalLineShape (s : Shape) : Bool := s.type == ShapeType.verticalLine

/-! ## Claim C1 -/

/-- C1 (counterexample): for the 2×2 buffer `img2x2`, pixel (0,0) has
alpha 100 > 0, yet `decomposeIntoShapes` reports `isEmpty = true` — so
`isEmpty` is not equivalent to "no non-transparent pixel exists". -/
theorem c1_counterexample :
    (decomposeIntoShapes img2x2).isEmpty = true ∧
    0 < alphaAt img2x2.data img2x2.width 0 0 := by decide

/-- C1 (amended): `isEmpty` is true exactly when the returned shape list
is empty; if no pixel of a well-formed buffer has positive alpha then
`isEmpty` is true, but `isEmpty` can also be true when non-transparent
pixels exist and no shape was detected. -/
theorem c1_isEmpty_characterization (img : ImageData) :
    ((decomposeIntoShapes img).isEmpty = true ↔ (decomposeIntoShapes img).shapes = []) ∧
    (img.data.length = img.width * img.height * 4 → NoContent img →
      (decomposeIntoShapes img).isEmpty = true) :=
  ⟨decompose_isEmpty_iff img, fun hlen hnc => noContent_isEmpty img hlen hnc⟩

/-- C1 (witness): the amended characterization applied to a concrete
transparent 1×1 buffer. -/
theorem c1_isEmpty_characterization_witness :
    (decomposeIntoShapes ⟨1, 1, [0, 0, 0, 0]⟩).isEmpty = true :=
  (c1_isEmpty_characterization ⟨1, 1, [0, 0, 0, 0]⟩).2 (by decide) (by decide)

/-! ## Claim C8 -/

/-- C8: a zero-sized buffer (width = 0 or height = 0, with the buffer
length invariant `data.length = width * height * 4`) yields
`isEmpty = true` and an empty shape list; being a total function,
`decomposeIntoShapes` raises no error. -/
theorem c8_zero_sized_buffers (img : ImageData)
    (hlen : img.data.length = img.width * img.height * 4)
    (hz : img.width = 0 ∨ img.height = 0) :
    (decomposeIntoShapes img).isEmpty = true ∧ (decomposeIntoShapes img).shapes = [] :=
  decompose_zero_sized img hlen hz

/-- C8 (witness): a concrete zero-width buffer. -/
theorem c8_zero_sized_buffers_witness :
    (decomposeIntoShapes ⟨0, 5, []⟩).isEmpty = true ∧
      (decomposeIntoShapes ⟨0, 5, []⟩).shapes = [] :=
  c8_zero_sized_buffers ⟨0, 5, []⟩ (by decide) (Or.inl rfl)

/-! ## Claim C2 -/

set_option maxRecDepth 100000 in
/-- C2 (counterexample): for the 50×4 fully opaque red strip,
`decomposeIntoShapes` does not return exactly one horizontal-line shape
and no vertical-line shape. -/
theorem c2_counterexample :
    ¬ ((((decomposeIntoShapes redStrip).shapes.filter isHorizontalLineShape).length = 1) ∧
      (((decomposeIntoShapes redStrip).shapes.filter isVerticalLineShape).length = 0)) := by
  decide

set_option maxRecDepth 100000 in
/-- C2 (amended): for the 50×4 fully opaque red strip,
`decomposeIntoShapes` returns four horizontal-line shapes (one per row),
each of length 50 — which lies in [40, 50] — and fifty vertical-line
shapes (one per column); no consolidation merges them. -/
theorem c2_amended_line_counts :
    (((decomposeIntoShapes redStrip).shapes.filter isHorizontalLineShape).length = 4) ∧
    (∀ s ∈ (decomposeIntoShapes redStrip).shapes, isHorizontalLineShape s = true →
      40 ≤ s.length ∧ s.length ≤ 50) ∧
    (((decomposeIntoShapes redStrip).shapes.filter isVerticalLineShape).length = 50) := by
  decide

/-! ## Claim C3 -/

/-- C3 (counterexample): the 2×1 buffer `img2x1` yields exactly one
vertical slice, but `detectGrid` reports `columns = 0`, not
`max(verticalSlices.length - 1, 1) = 1`. -/
theorem c3_counterexample :
    (detectGrid img2x1 5 50 50).verticalSlices.length = 1 ∧
    (detectGrid img2x1 5 50 50).columns = 0 ∧
    (detectGrid img2x1 5 50 50).columns ≠
      max (((detectGrid img2x1 5 50 50).verticalSlices.length : Int) - 1) 1 := by decide

/-- C3 (amended): `columns` is `verticalSlices.length - 1` when at least
one vertical slice exists and `1` otherwise (so a single slice yields
`columns = 0`, not `1`), and symmetrically for `rows`. -/
theorem c3_amended_columns_rows (img : ImageData) (tolerance minXGap minYGap : Int) :
    (detectGrid img tolerance minXGap minYGap).columns =
      (if 0 < (detectGrid img tolerance minXGap minYGap).verticalSlices.length
        then ((detectGrid img tolerance minXGap minYGap).verticalSlices.length : Int) - 1
        else 1) ∧
    (detectGrid img tolerance minXGap minYGap).rows =
      (if 0 < (detectGrid img tolerance minXGap minYGap).horizontalSlices.length
        then ((detectGrid img tolerance minXGap minYGap).horizontalSlices.length : Int) - 1
        else 1) :=
  ⟨rfl, rfl⟩

/-! ## Claim C4 (counterexample) -/

/-- C4 (counterexample): the center pixel of `img3x3s` lies in the scanned
band of slice 1, has alpha 150 with `0 < 150 < 200` and four fully
transparent in-bounds 4-connected neighbors, yet `removeShadowsAlongSlices`
leaves its alpha at 150 (the code additionally requires alpha < 128). -/
theorem c4_counterexample :
    alphaAt img3x3s.data 3 1 1 = 150 ∧
    2 ≤ transparentNeighborCount img3x3s.data 3 3 1 1 ∧
    alphaAt (removeShadowsAlongSlices img3x3s [1] 3).data 3 1 1 = 150 := by decide

/-! ## Claim C5 -/

/-- C5: for divider groups in strictly increasing center order (as
produced by consolidation) and minimum gaps `g1 ≤ g2`, the minimum-gap
enforcement retains at most as many groups with `g2` as with `g1`. -/
theorem c5_minGap_monotone (groups : List DividerGroup) (g1 g2 : Int) (hg : g1 ≤ g2)
    (hsorted : List.Pairwise (fun a b => a.center < b.center) groups) :
    (enforceMinimumGap groups g2).length ≤ (enforceMinimumGap groups g1).length :=
  enforceMinimumGap_length_mono groups g1 g2 hg hsorted

/-- C5 (witness): monotonicity applied to a concrete ordered group list. -/
theorem c5_minGap_monotone_witness :
    (enforceMinimumGap [⟨0, 0, 0, 1⟩, ⟨10, 10, 10, 1⟩] 7).length ≤
      (enforceMinimumGap [⟨0, 0, 0, 1⟩, ⟨10, 10, 10, 1⟩] 3).length :=
  c5_minGap_monotone [⟨0, 0, 0, 1⟩, ⟨10, 10, 10, 1⟩] 3 7 (by decide) (by decide)

/-! ## Claim C4 (amended): the shadow-band scan does zero qualifying pixels -/

theorem alphaShrink_zero_persist {d d' : List Nat} (h : AlphaShrink d d') {n : Nat}
    (h0 : d.getD n 0 = 0) : d'.getD n 0 = 0 := by
  rcases (h.2 n).2 with he | he
  · rw [he, h0]
  · exact he

theorem alphaAt_zero_persist {d d' : List Nat} (h : AlphaShrink d d') {w : Nat} {x y : Int}
    (h0 : alphaAt d w x y = 0) : alphaAt d' w x y = 0 :=
  alphaShrink_zero_persist h h0

theorem readByte_zero_persist {d d' : List Nat} (h : AlphaShrink d d') {i : Int}
    (h0 : readByte d i = 0) : readByte d' i = 0 :=
  alphaShrink_zero_persist h h0

theorem ite_succ_le_ite_succ {c1 c2 : Nat} (P Q : Prop) [Decidable P] [Decidable Q]
    (hc : c1 ≤ c2) (hpq : P → Q) : (if P then c1 + 1 else c1) ≤ (if Q then c2 + 1 else c2) := by
  by_cases hp : P
  · rw [if_pos hp, if_pos (hpq hp)]
    omega
  · rw [if_neg hp]
    split <;> omega

/-- Zeroing alphas can only increase the transparent-neighbor count. -/
theorem transparentNeighborCount_mono {d d' : List Nat} (h : AlphaShrink d d')
    (width height : Nat) (x y : Int) :
    transparentNeighborCount d width height x y ≤
      transparentNeighborCount d' width height x y := by
  unfold transparentNeighborCount
  simp only [List.foldl_cons, List.foldl_nil]
  refine ite_succ_le_ite_succ _ _
    (ite_succ_le_ite_succ _ _
      (ite_succ_le_ite_succ _ _
        (ite_succ_le_ite_succ _ _ le_rfl ?_) ?_) ?_) ?_ <;>
    exact fun hc => ⟨hc.1, hc.2.1, hc.2.2.1, hc.2.2.2.1,
      readByte_zero_persist h hc.2.2.2.2⟩

/-- When the scanned pixel has `0 < alpha < 128` and at least two fully
transparent in-bounds 4-neighbors, `shadowPixelStep` zeroes its alpha. -/
theorem shadowPixelStep_zeroes (width height : Nat) (y : Int) (d : List Nat) (x : Int)
    (ha1 : 0 < alphaAt d width x y) (ha2 : alphaAt d width x y < 128)
    (hn : 2 ≤ transparentNeighborCount d width height x y) :
    alphaAt (shadowPixelStep width height y d x) width x y = 0 := by
  have hsp : isShadowPixel d x y width height = true := by
    unfold isShadowPixel
    exact decide_eq_true ⟨hn, ha2⟩
  have hcond : 0 < readByte d (pixelIndex width x y + 3) ∧
      readByte d (pixelIndex width x y + 3) < 200 := ⟨ha1, by
    have := ha2
    unfold alphaAt at this
    omega⟩
  unfold shadowPixelStep
  dsimp only
  rw [if_pos hcond, if_pos hsp]
  have hlt : (pixelIndex width x y + 3).toNat < d.length := by
    by_contra hge
    unfold alphaAt readByte at ha1
    rw [List.getD_eq_default _ _ (Nat.le_of_not_lt hge)] at ha1
    exact absurd ha1 (lt_irrefl 0)
  unfold alphaAt readByte
  exact getD_set_same d _ 0 hlt

/-- The row scan zeroes the pixel at `x` when its alpha (tracked from the
original buffer `d0` through `AlphaShrink`) is in `(0, 128)` with at least
two fully transparent in-bounds 4-neighbors in `d0`. -/
theorem rowFold_zeroes (width height : Nat) (y : Int) (d0 d : List Nat) (x : Int)
    (hchain : AlphaShrink d0 d) (hx : x ∈ intRange 0 (width : Int)) (hy0 : 0 ≤ y)
    (ha1 : 0 < alphaAt d0 width x y) (ha2 : alphaAt d0 width x y < 128)
    (hn : 2 ≤ transparentNeighborCount d0 width height x y) :
    alphaAt ((intRange 0 (width : Int)).foldl (shadowPixelStep width height y) d)
      width x y = 0 := by
  have hx0 : 0 ≤ x := (mem_intRange.mp hx).1
  obtain ⟨X1, X2, hX⟩ := List.append_of_mem hx
  have hXmem : ∀ xx ∈ X1, (0 : Int) ≤ xx := fun xx hxx =>
    (mem_intRange.mp (by rw [hX]; exact List.mem_append_left _ hxx)).1
  have hXmem2 : ∀ xx ∈ X2, (0 : Int) ≤ xx := fun xx hxx =>
    (mem_intRange.mp (by
      rw [hX]; exact List.mem_append_right _ (List.mem_cons_of_mem _ hxx))).1
  rw [hX, List.foldl_append, List.foldl_cons]
  refine alphaAt_zero_persist
    (alphaShrink_foldl _ _ (fun d xx hxx =>
      shadowPixelStep_shrink width height y d xx (hXmem2 xx hxx) hy0) _) ?_
  have hXchain : AlphaShrink d0 (X1.foldl (shadowPixelStep width height y) d) :=
    alphaShrink_trans hchain (alphaShrink_foldl _ _ (fun d xx hxx =>
      shadowPixelStep_shrink width height y d xx (hXmem xx hxx) hy0) d)
  rcases (hXchain.2 (pixelIndex width x y + 3).toNat).2 with he | he
  · refine shadowPixelStep_zeroes width height y _ x ?_ ?_ ?_
    · unfold alphaAt readByte
      rw [he]
      exact ha1
    · unfold alphaAt readByte
      rw [he]
      exact ha2
    · exact le_trans hn (transparentNeighborCount_mono hXchain width height x y)
  · exact alphaAt_zero_persist
      (shadowPixelStep_shrink width height y _ x hx0 hy0) he

/-- The band scan of one slice zeroes a qualifying pixel of a row of the
band. -/
theorem bandFold_zeroes (width height : Nat) (d0 d : List Nat) (lo hi x y : Int)
    (hchain : AlphaShrink d0 d) (hlo : 0 ≤ lo) (hy : y ∈ intRange lo hi)
    (hx : x ∈ intRange 0 (width : Int))
    (ha1 : 0 < alphaAt d0 width x y) (ha2 : alphaAt d0 width x y < 128)
    (hn : 2 ≤ transparentNeighborCount d0 width height x y) :
    alphaAt ((intRange lo hi).foldl (fun d yy =>
        (intRange 0 (width : Int)).foldl (shadowPixelStep width height yy) d) d)
      width x y = 0 := by
  have hy0 : 0 ≤ y := le_trans hlo (mem_intRange.mp hy).1
  obtain ⟨R1, R2, hR⟩ := List.append_of_mem hy
  have hRmem : ∀ yy ∈ R1, (0 : Int) ≤ yy := fun yy hyy =>
    le_trans hlo (mem_intRange.mp (by rw [hR]; exact List.mem_append_left _ hyy)).1
  have hRmem2 : ∀ yy ∈ R2, (0 : Int) ≤ yy := fun yy hyy =>
    le_trans hlo (mem_intRange.mp (by
      rw [hR]; exact List.mem_append_right _ (List.mem_cons_of_mem _ hyy))).1
  rw [hR, List.foldl_append, List.foldl_cons]
  refine alphaAt_zero_persist
    (alphaShrink_foldl _ _ (fun d yy hyy =>
      alphaShrink_foldl _ _ (fun d xx hxx =>
        shadowPixelStep_shrink width height yy d xx
          (mem_intRange.mp hxx).1 (hRmem2 yy hyy)) d) _) ?_
  have hRchain : AlphaShrink d0 (R1.foldl (fun d yy =>
      (intRange 0 (width : Int)).foldl (shadowPixelStep width height yy) d) d) :=
    alphaShrink_trans hchain (alphaShrink_foldl _ _ (fun d yy hyy =>
      alphaShrink_foldl _ _ (fun d xx hxx =>
        shadowPixelStep_shrink width height yy d xx
          (mem_intRange.mp hxx).1 (hRmem yy hyy)) d) d)
  exact rowFold_zeroes width height y d0 _ x hRchain hx hy0 ha1 ha2 hn

/-- Core of the amended C4: a pixel of the scanned band of some slice
line, with input alpha in `(0, 128)` and at least two fully transparent
in-bounds 4-neighbors in the input, has alpha 0 after
`removeShadowsAlongSlices`. -/
theorem removeShadows_zeroes_core (img : ImageData) (sliceLines : List Int)
    (shadowWidth : Int) (s x y : Int) (hs : s ∈ sliceLines)
    (hx0 : 0 ≤ x) (hxw : x < (img.width : Int))
    (hy1 : max 0 (s - shadowWidth) ≤ y)
    (hy2 : y < min (img.height : Int) (s + shadowWidth))
    (ha1 : 0 < alphaAt img.data img.width x y)
    (ha2 : alphaAt img.data img.width x y < 128)
    (hn : 2 ≤ transparentNeighborCount img.data img.width img.height x y) :
    alphaAt (removeShadowsAlongSlices img sliceLines shadowWidth).data img.width x y = 0 := by
  obtain ⟨L1, L2, hL⟩ := List.append_of_mem hs
  unfold removeShadowsAlongSlices
  dsimp only
  rw [hL, List.foldl_append, List.foldl_cons]
  refine alphaAt_zero_persist
    (alphaShrink_foldl _ _
      (fun d a _ => shadowSliceStep_shrink img.width img.height shadowWidth d a) _) ?_
  have hpre : AlphaShrink img.data
      (L1.foldl (shadowSliceStep img.width img.height shadowWidth) img.data) :=
    alphaShrink_foldl _ _
      (fun d a _ => shadowSliceStep_shrink img.width img.height shadowWidth d a) img.data
  unfold shadowSliceStep
  dsimp only
  exact bandFold_zeroes img.width img.height img.data _
    (max 0 (s - shadowWidth)) (min (img.height : Int) (s + shadowWidth)) x y
    hpre (le_max_left 0 _) (mem_intRange.mpr ⟨hy1, hy2⟩)
    (mem_intRange.mpr ⟨hx0, hxw⟩) ha1 ha2 hn

/-- C4 (amended): after `removeShadowsAlongSlices`, every pixel lying in
the scanned band of a slice coordinate `s` (rows
`max(0, s - shadowWidth) ≤ y < min(height, s + shadowWidth)`), whose input
alpha `a` satisfies `0 < a < 128` (not `a < 200`: `isShadowPixel` also
requires `a < 128`) and which has at least 2 fully transparent in-bounds
4-connected neighbors in the input, has been set to alpha 0. -/
theorem c4_shadow_band_zeroing (img : ImageData) (sliceLines : List Int)
    (shadowWidth : Int) (s x y : Int) (hs : s ∈ sliceLines)
    (hx : 0 ≤ x ∧ x < (img.width : Int))
    (hy : max 0 (s - shadowWidth) ≤ y ∧ y < min (img.height : Int) (s + shadowWidth))
    (ha : 0 < alphaAt img.data img.width x y ∧ alphaAt img.data img.width x y < 128)
    (hn : 2 ≤ transparentNeighborCount img.data img.width img.height x y) :
    alphaAt (removeShadowsAlongSlices img sliceLines shadowWidth).data img.width x y = 0 :=
  removeShadows_zeroes_core img sliceLines shadowWidth s x y hs hx.1 hx.2 hy.1 hy.2
    ha.1 ha.2 hn

/-- C4 (witness): the amended claim applied to a 3×3 buffer whose center
pixel has alpha 100 and transparent neighbors. -/
theorem c4_shadow_band_zeroing_witness :
    alphaAt (removeShadowsAlongSlices img3x3w [1] 3).data img3x3w.width 1 1 = 0 :=
  c4_shadow_band_zeroing img3x3w [1] 3 1 1 1 (by decide) (by decide) (by decide)
    (by decide) (by decide)

/-! ## Claim C7 -/

/-- C7: whenever `decomposeIntoShapes` emits at least one
rounded-rectangle shape, it emits no shape of type rectangle (the
rounded-rectangle test suppresses the plain-rectangle test, and the line
detectors emit only line shapes). -/
theorem c7_rounded_rectangle_exclusive (img : ImageData)
    (hr : ∃ s ∈ (decomposeIntoShapes img).shapes, s.type = ShapeType.roundedRectangle) :
    ∀ s ∈ (decomposeIntoShapes img).shapes, s.type ≠ ShapeType.rectangle :=
  decompose_exclusive img hr

set_option maxRecDepth 100000 in
/-- C7 (witness): exclusivity applied to an 8×8 buffer that yields a
rounded-rectangle shape, instantiated at that emitted shape (the first
element of the returned shape list). -/
theorem c7_rounded_rectangle_exclusive_witness :
    (Shape.roundedRectangle 0 0 8 8 ⟨255, 0, 0, 255⟩ 1 ⟨1, 0, 0, 0⟩).type ≠
      ShapeType.rectangle :=
  c7_rounded_rectangle_exclusive img8x8 (by decide)
    (Shape.roundedRectangle 0 0 8 8 ⟨255, 0, 0, 255⟩ 1 ⟨1, 0, 0, 0⟩) (by decide)

/-! ## Claim C6 -/

/-- C6: the background mask built by `removeBackground` (through
`createBackgroundMask`, for any detected background color and effective
tolerance) marks a pixel only if it is a background-candidate (RGB
distance to the background color within the tolerance) and reachable from
an image edge through 4-connected background-candidate pixels — hence a
candidate region enclosed by non-candidates away from every edge is never
masked. -/
theorem c6_mask_only_reachable_candidates (img : ImageData) (backgroundColor : Color)
    (tolerance : Int) (i : Nat)
    (hmask : (createBackgroundMask img backgroundColor tolerance).getD i 0 = 1) :
    isBackgroundCandidate img.data backgroundColor tolerance i = true ∧
      ReachBG (initialBackgroundMask img backgroundColor tolerance)
        img.width img.height i :=
  createBackgroundMask_sound img backgroundColor tolerance i hmask

/-- C6 (witness): the soundness statement applied to the 1×1 white buffer,
whose single pixel is masked. -/
theorem c6_mask_only_reachable_candidates_witness :
    isBackgroundCandidate img1x1.data ⟨255, 255, 255, 255⟩ 10 0 = true ∧
      ReachBG (initialBackgroundMask img1x1 ⟨255, 255, 255, 255⟩ 10)
        img1x1.width img1x1.height 0 :=
  c6_mask_only_reachable_candidates img1x1 ⟨255, 255, 255, 255⟩ 10 0 (by
    have hstep : (floodFillFromEdges [1] 1 1 rfl).getD 0 0 = 1 := by
      unfold floodFillFromEdges
      dsimp only
      rw [show ((List.range 1).flatMap fun x => [x, (1 - 1) * 1 + x]) ++
        ((List.range 1).flatMap fun y => [y * 1, y * 1 + 1 - 1]) = [0, 0, 0, 0] from rfl]
      rw [floodLoop]
      norm_num
      rw [floodLoop]
      norm_num
      rw [floodLoop]
      norm_num
      rw [floodLoop]
      norm_num
      rw [floodLoop]
      rfl
    exact hstep)

/-! ## Claim C9 -/

/-- C9: `removeBackground` and `removeShadowsAlongSlices` only ever clear
alpha channels: the result has the same length, every non-alpha byte
(R, G, B) equals the corresponding input byte, and every alpha byte is
either unchanged or 0 — hence pointwise at most the input alpha. -/
theorem c9_only_clears_alpha (img : ImageData) (tolerance aggressiveness : Int)
    (sliceLines : List Int) (shadowWidth : Int) :
    AlphaShrink img.data (removeBackground img tolerance aggressiveness).data ∧
    AlphaShrink img.data (removeShadowsAlongSlices img sliceLines shadowWidth).data :=
  ⟨removeBackground_shrink img tolerance aggressiveness,
    removeShadowsAlongSlices_shrink img sliceLines shadowWidth⟩

/-- C9 (witness): the frame property applied at a concrete buffer. -/
theorem c9_only_clears_alpha_witness :
    AlphaShrink img2x1.data (removeBackground img2x1 10 30).data ∧
    AlphaShrink img2x1.data (removeShadowsAlongSlices img2x1 [1] 3).data :=
  ⟨(c9_only_clears_alpha img2x1 10 30 [1] 3).1, (c9_only_clears_alpha img2x1 10 30 [1] 3).2⟩

/-! ## Claim C10 -/

/-- C10: for every input image, the `horizontalSlices` and
`verticalSlices` of the `GridConfig` returned by `detectGrid` are
strictly increasing coordinate lists; consequently, whenever a slice
exists (so `computeCells` takes its grid branch rather than the
whole-image fallback), every emitted cell between consecutive slice
centers has strictly positive width and height. -/
theorem c10_slices_increasing_cells_positive (img : ImageData)
    (tolerance minXGap minYGap : Int) :
    List.Pairwise (· < ·) (detectGrid img tolerance minXGap minYGap).horizontalSlices ∧
    List.Pairwise (· < ·) (detectGrid img tolerance minXGap minYGap).verticalSlices ∧
    (¬((detectGrid img tolerance minXGap minYGap).horizontalSlices = [] ∧
        (detectGrid img tolerance minXGap minYGap).verticalSlices = []) →
      ∀ c ∈ (detectGrid img tolerance minXGap minYGap).cells,
        0 < c.width ∧ 0 < c.height) := by
  have hhd : List.Pairwise (· < ·)
      (((List.range img.height).filter fun y : Nat =>
        isUniformRow img.data img.width (y : Int) tolerance).map fun y : Nat => (y : Int)) :=
    scan_dividers_pairwise _ _
  have hvd : List.Pairwise (· < ·)
      (((List.range img.width).filter fun x : Nat =>
        isUniformColumn img.data img.width (x : Int) tolerance img.height).map
        fun x : Nat => (x : Int)) :=
    scan_dividers_pairwise _ _
  have hH := slices_pairwise _ hhd minYGap
  have hV := slices_pairwise _ hvd minXGap
  simp only [detectGrid, findHorizontalDividers, findVerticalDividers]
  exact ⟨hH, hV, fun hne => computeCells_pos _ _ img.width img.height _ hH hV hne⟩

/-- C10 (witness): the slice/cell invariant instantiated on a concrete
2×1 buffer, with the slice-exists hypothesis discharged by `decide`. -/
theorem c10_slices_increasing_cells_positive_witness :
    List.Pairwise (· < ·) (detectGrid img2x1 5 50 50).horizontalSlices ∧
    List.Pairwise (· < ·) (detectGrid img2x1 5 50 50).verticalSlices ∧
    (∀ c ∈ (detectGrid img2x1 5 50 50).cells, 0 < c.width ∧ 0 < c.height) :=
  ⟨(c10_slices_increasing_cells_positive img2x1 5 50 50).1,
    (c10_slices_increasing_cells_positive img2x1 5 50 50).2.1,
    (c10_slices_increasing_cells_positive img2x1 5 50 50).2.2 (by decide)⟩

end AutoSlice
